import Mathlib

/-!
Verification model of the single-instrument order matching engine.

The C++ sources are embedded shallowly:
* machine integers become `Nat`/`Int` (no overflow occurs on the paths modelled;
  `uint64_t` subtractions in the source only happen when the minuend is at least
  the subtrahend, matching truncated `Nat` subtraction),
* `Order*` pointers become pool-slot indices (`Nat`); the order pool's backing
  array becomes a function `Nat → OrderRec`, so pointer aliasing, the intrusive
  free list and the intrusive doubly linked lists of the price levels are
  preserved exactly,
* the two `std::vector<PriceLevel>` price grids become functions `Int → Level`
  indexed directly by price (the source indexes by `price - PRICE_MIN`);
  accesses that would be out of bounds in the source (undefined behaviour)
  are modelled by `Option`, returning `none`,
* wall-clock timestamps and latency bookkeeping are irrelevant to the claims
  and are dropped; the emitted trade prints become an explicit trade list.
-/

set_option maxRecDepth 20000

namespace OME

/-! ## Configuration constants (`include/types.hpp`) -/

def PRICE_MIN : Int := 0
def PRICE_MAX : Int := 10000
def PRICE_LEVELS : Nat := 10001
def MAX_ORDERS : Nat := 1000000
def RING_BUFFER_SIZE : Nat := 1048576

/-! ## Enumerations -/

inductive Side where
  | BUY
  | SELL
deriving DecidableEq, Repr

inductive CommandType where
  | NEW
  | CANCEL
deriving DecidableEq, Repr

inductive OrderType where
  | LIMIT
  | IOC
  | FOK
deriving DecidableEq, Repr

inductive OrderStatus where
  | PENDING
  | PARTIAL_FILL
  | FILLED
  | CANCELLED
  | REJECTED
deriving DecidableEq, Repr

/-! ## Core data structures -/

/-- The `Order` struct. `next`/`prev` are the intrusive linked-list pointers,
represented as optional pool-slot indices; `none` is `nullptr`. -/
structure OrderRec where
  order_id : Nat
  side : Side
  order_type : OrderType
  price : Int
  quantity : Nat
  original_quantity : Nat
  status : OrderStatus
  timestamp : Nat
  next : Option Nat
  prev : Option Nat
deriving DecidableEq, Repr

/-- Default-constructed `Order`. -/
def OrderRec.init : OrderRec :=
  { order_id := 0, side := .BUY, order_type := .LIMIT, price := 0, quantity := 0,
    original_quantity := 0, status := .PENDING, timestamp := 0, next := none, prev := none }

/-- The backing storage of the order pool: slot index to order record. -/
abbrev Heap := Nat → OrderRec

def writeSlot (h : Heap) (s : Nat) (o : OrderRec) : Heap :=
  fun j => if j = s then o else h j

/-- The `Command` struct (`order_type` exists in the enhanced engine's command;
the basic engine ignores it). -/
structure Command where
  type : CommandType
  order_id : Nat
  side : Side
  order_type : OrderType
  price : Int
  quantity : Nat
  producer_timestamp : Nat
deriving DecidableEq, Repr

/-- `PriceLevel`: aggregated volume plus head/tail of the intrusive list. -/
structure Level where
  total_volume : Nat
  head : Option Nat
  tail : Option Nat
deriving DecidableEq, Repr

def Level.initL : Level := { total_volume := 0, head := none, tail := none }

/-- `PriceLevel::add_order`: append `s` at the tail, then
`total_volume += order->quantity`.  The source dereferences `tail` in the
non-empty branch; a state with `head ≠ null` but `tail = null` would be a null
dereference, modelled as `none`. -/
def levelAddOrder (h : Heap) (lv : Level) (s : Nat) : Option (Heap × Level) :=
  match lv.head with
  | none =>
      let h1 := writeSlot h s { h s with next := none, prev := none }
      some (h1, { total_volume := lv.total_volume + (h1 s).quantity,
                  head := some s, tail := some s })
  | some _ =>
      match lv.tail with
      | none => none
      | some t =>
          let h1 := writeSlot h t { h t with next := some s }
          let h2 := writeSlot h1 s { h1 s with prev := some t, next := none }
          some (h2, { total_volume := lv.total_volume + (h2 s).quantity,
                      head := lv.head, tail := some s })

/-- `PriceLevel::remove_order`: unlink `s` from anywhere in the list, then
`total_volume -= order->quantity` (the order's *current* remaining quantity). -/
def levelRemoveOrder (h : Heap) (lv : Level) (s : Nat) : Heap × Level :=
  let o := h s
  let hd :=
    match o.prev with
    | some p' => (writeSlot h p' { h p' with next := o.next }, lv.head)
    | none => (h, o.next)
  let tl :=
    match o.next with
    | some n' => (writeSlot hd.1 n' { hd.1 n' with prev := o.prev }, lv.tail)
    | none => (hd.1, o.prev)
  (tl.1, { total_volume := lv.total_volume - o.quantity, head := hd.2, tail := tl.2 })

/-- `PriceLevel::empty`: `head == nullptr`. -/
def Level.emptyL (lv : Level) : Bool := lv.head = none

/-! ## Order pool (`order_pool.cpp`) -/

structure Pool where
  slots : Heap
  free_head : Option Nat
  allocated_count : Nat

/-- `OrderPool::OrderPool(max_orders)`: all slots chained on the free list. -/
def Pool.initP : Pool :=
  { slots := fun i =>
      if i + 1 < MAX_ORDERS then { OrderRec.init with next := some (i + 1) }
      else { OrderRec.init with next := none },
    free_head := some 0,
    allocated_count := 0 }

/-- `OrderPool::allocate`: pop the free-list head, clear its links. -/
def Pool.allocate (pl : Pool) : Option (Nat × Pool) :=
  match pl.free_head with
  | none => none
  | some s =>
      let o := pl.slots s
      some (s, { slots := writeSlot pl.slots s { o with next := none, prev := none },
                 free_head := o.next,
                 allocated_count := pl.allocated_count + 1 })

/-- `OrderPool::free`: push `s` on the free list; only the slot's `next` link,
`free_head_` and `allocated_count_` are written. -/
def Pool.free (pl : Pool) (s : Nat) : Pool :=
  { slots := writeSlot pl.slots s { pl.slots s with next := pl.free_head },
    free_head := some s,
    allocated_count := pl.allocated_count - 1 }

/-! ## Order book (`book.hpp` / the `Book` translation unit) -/

structure Book where
  bidLevels : Int → Level
  askLevels : Int → Level
  best_bid_price : Int
  best_ask_price : Int

def writeLevel (f : Int → Level) (p : Int) (lv : Level) : Int → Level :=
  fun q => if q = p then lv else f q

def Book.initB : Book :=
  { bidLevels := fun _ => Level.initL, askLevels := fun _ => Level.initL,
    best_bid_price := -1, best_ask_price := -1 }

/-- `Book::get_price_level`: `nullptr` outside `[PRICE_MIN, PRICE_MAX]`. -/
def Book.getPriceLevel (bk : Book) (price : Int) (side : Side) : Option Level :=
  if price < PRICE_MIN ∨ PRICE_MAX < price then none
  else match side with
       | .BUY => some (bk.bidLevels price)
       | .SELL => some (bk.askLevels price)

/-- `Book::update_best_bid`: scan down from `PRICE_MAX`, stop at the first
non-empty bid level, `-1` if none.  `fuel` counts the remaining prices to
inspect; it is always called with `PRICE_LEVELS`, which covers the whole
range, so the `0` case means the loop finished without a `break`. -/
def scanBestBid (f : Int → Level) : Nat → Int → Int
  | 0, _ => -1
  | fuel + 1, p => if (f p).head = none then scanBestBid f fuel (p - 1) else p

/-- `Book::update_best_ask`: scan up from `PRICE_MIN`. -/
def scanBestAsk (f : Int → Level) : Nat → Int → Int
  | 0, _ => -1
  | fuel + 1, p => if (f p).head = none then scanBestAsk f fuel (p + 1) else p

def Book.updateBestBid (bk : Book) : Book :=
  { bk with best_bid_price := scanBestBid bk.bidLevels PRICE_LEVELS PRICE_MAX }

def Book.updateBestAsk (bk : Book) : Book :=
  { bk with best_ask_price := scanBestAsk bk.askLevels PRICE_LEVELS PRICE_MIN }

/-- `Book::add_order`.  The source indexes the level vectors without a bounds
check; an out-of-range price is an out-of-bounds write (undefined behaviour),
modelled as `none`. -/
def Book.addOrder (h : Heap) (bk : Book) (s : Nat) : Option (Heap × Book) :=
  let o := h s
  if o.price < PRICE_MIN ∨ PRICE_MAX < o.price then none
  else match o.side with
  | .BUY =>
      (levelAddOrder h (bk.bidLevels o.price) s).map fun hl =>
        (hl.1,
         { bk with
            bidLevels := writeLevel bk.bidLevels o.price hl.2
            best_bid_price :=
              if bk.best_bid_price < o.price then o.price else bk.best_bid_price })
  | .SELL =>
      (levelAddOrder h (bk.askLevels o.price) s).map fun hl =>
        (hl.1,
         { bk with
            askLevels := writeLevel bk.askLevels o.price hl.2
            best_ask_price :=
              if bk.best_ask_price = -1 ∨ o.price < bk.best_ask_price then o.price
              else bk.best_ask_price })

/-- `Book::remove_order` (cancellation path): unlink, then rescan the best on
that side if the level emptied and the removed price was the best. -/
def Book.removeOrder (h : Heap) (bk : Book) (s : Nat) : Option (Heap × Book) :=
  let o := h s
  if o.price < PRICE_MIN ∨ PRICE_MAX < o.price then none
  else match o.side with
  | .BUY =>
      let hl := levelRemoveOrder h (bk.bidLevels o.price) s
      let bk1 := { bk with bidLevels := writeLevel bk.bidLevels o.price hl.2 }
      if hl.2.head = none ∧ o.price = bk.best_bid_price then some (hl.1, bk1.updateBestBid)
      else some (hl.1, bk1)
  | .SELL =>
      let hl := levelRemoveOrder h (bk.askLevels o.price) s
      let bk1 := { bk with askLevels := writeLevel bk.askLevels o.price hl.2 }
      if hl.2.head = none ∧ o.price = bk.best_ask_price then some (hl.1, bk1.updateBestAsk)
      else some (hl.1, bk1)

/-! ## Basic matching engine (`matching_engine.cpp`) -/

/-- One emitted `TRADE:` report. -/
structure Trade where
  aggressor : Nat
  resting : Nat
  price : Int
  qty : Nat
deriving DecidableEq, Repr

structure MEState where
  book : Book
  pool : Pool
  order_map : Nat → Option Nat
  trades : List Trade
  orders_processed : Nat
  trades_executed : Nat
  orders_rejected : Nat
  total_buy_quantity_matched : Nat
  total_sell_quantity_matched : Nat

def MEState.initE : MEState :=
  { book := Book.initB, pool := Pool.initP, order_map := fun _ => none, trades := [],
    orders_processed := 0, trades_executed := 0, orders_rejected := 0,
    total_buy_quantity_matched := 0, total_sell_quantity_matched := 0 }

def MEState.writeS (st : MEState) (s : Nat) (o : OrderRec) : MEState :=
  { st with pool := { st.pool with slots := writeSlot st.pool.slots s o } }

def mapSet (m : Nat → Option Nat) (i : Nat) (v : Option Nat) : Nat → Option Nat :=
  fun j => if j = i then v else m j

/-- `MatchingEngine::execute_trade`: record the trade and bump the totals. -/
def execTrade (st : MEState) (aggId restId : Nat) (price : Int) (q : Nat) : MEState :=
  { st with trades := st.trades ++ [⟨aggId, restId, price, q⟩],
            trades_executed := st.trades_executed + 1,
            total_buy_quantity_matched := st.total_buy_quantity_matched + q,
            total_sell_quantity_matched := st.total_sell_quantity_matched + q }

/-- Upper bound on the length of any well-formed level list; used as fuel for
the inner matching loops (the source loops until the list ends). -/
def chainFuel : Nat := MAX_ORDERS + 1

/-- One iteration of the inner loop of `MatchingEngine::match_against_asks`:
trade against the resting order in slot `s`, decrement both quantities, and if
the resting order is fully consumed remove it from the level (via
`level->remove_order` directly, at which point its quantity is already zero,
so `total_volume` is reduced by zero), clear its id-map entry and free it. -/
def askStep (a : Nat) (price : Int) (s : Nat) (st : MEState) : MEState :=
  let tq := min (st.pool.slots a).quantity (st.pool.slots s).quantity
  let st1 := execTrade st (st.pool.slots a).order_id (st.pool.slots s).order_id price tq
  let st2 := st1.writeS a { st1.pool.slots a with quantity := (st1.pool.slots a).quantity - tq }
  let st3 := st2.writeS s { st2.pool.slots s with quantity := (st2.pool.slots s).quantity - tq }
  if (st3.pool.slots s).quantity = 0 then
    let hl := levelRemoveOrder st3.pool.slots (st3.book.askLevels price) s
    let stR := { st3 with
      pool := { st3.pool with slots := hl.1 },
      book := { st3.book with askLevels := writeLevel st3.book.askLevels price hl.2 } }
    let stM := if (stR.pool.slots s).order_id < MAX_ORDERS
               then { stR with order_map := mapSet stR.order_map (stR.pool.slots s).order_id none }
               else stR
    { stM with pool := stM.pool.free s }
  else st3

/-- Inner loop of `MatchingEngine::match_against_asks`
(`while (ask_order && buy_order->quantity > 0)`), aggressor in slot `a`;
traversal follows the `next` pointer saved before the step mutates the slot. -/
def matchAsksLoop (a : Nat) (price : Int) : Nat → Option Nat → MEState → MEState
  | 0, _, st => st
  | _, none, st => st
  | fuel + 1, some s, st =>
      if (st.pool.slots a).quantity = 0 then st else
      matchAsksLoop a price fuel (st.pool.slots s).next (askStep a price s st)

/-- Price loop of `MatchingEngine::match_against_asks`:
`for (price = best_ask; price <= buy->price && price != -1; ++price)`.
`fuel` bounds the iteration count; the wrapper below supplies exactly enough. -/
def matchAsksWalk (a : Nat) : Nat → Int → MEState → MEState
  | 0, _, st => st
  | fuel + 1, p, st =>
      if p ≤ (st.pool.slots a).price ∧ p ≠ -1 then
        match st.book.getPriceLevel p .SELL with
        | none => matchAsksWalk a fuel (p + 1) st
        | some lv =>
            if lv.head = none then matchAsksWalk a fuel (p + 1) st
            else
              let st1 := matchAsksLoop a p chainFuel lv.head st
              if (st1.pool.slots a).quantity = 0 then st1
              else matchAsksWalk a fuel (p + 1) st1
      else st

def matchAgainstAsks (a : Nat) (st : MEState) : MEState :=
  matchAsksWalk a (((st.pool.slots a).price - st.book.best_ask_price).toNat + 1)
    st.book.best_ask_price st

/-- One iteration of the inner loop of `MatchingEngine::match_against_bids`
(mirror of `askStep` on the bid side). -/
def bidStep (a : Nat) (price : Int) (s : Nat) (st : MEState) : MEState :=
  let tq := min (st.pool.slots a).quantity (st.pool.slots s).quantity
  let st1 := execTrade st (st.pool.slots a).order_id (st.pool.slots s).order_id price tq
  let st2 := st1.writeS a { st1.pool.slots a with quantity := (st1.pool.slots a).quantity - tq }
  let st3 := st2.writeS s { st2.pool.slots s with quantity := (st2.pool.slots s).quantity - tq }
  if (st3.pool.slots s).quantity = 0 then
    let hl := levelRemoveOrder st3.pool.slots (st3.book.bidLevels price) s
    let stR := { st3 with
      pool := { st3.pool with slots := hl.1 },
      book := { st3.book with bidLevels := writeLevel st3.book.bidLevels price hl.2 } }
    let stM := if (stR.pool.slots s).order_id < MAX_ORDERS
               then { stR with order_map := mapSet stR.order_map (stR.pool.slots s).order_id none }
               else stR
    { stM with pool := stM.pool.free s }
  else st3

/-- Inner loop of `MatchingEngine::match_against_bids`. -/
def matchBidsLoop (a : Nat) (price : Int) : Nat → Option Nat → MEState → MEState
  | 0, _, st => st
  | _, none, st => st
  | fuel + 1, some s, st =>
      if (st.pool.slots a).quantity = 0 then st else
      matchBidsLoop a price fuel (st.pool.slots s).next (bidStep a price s st)

/-- Price loop of `MatchingEngine::match_against_bids`:
`for (price = best_bid; price >= sell->price && price != -1; --price)`. -/
def matchBidsWalk (a : Nat) : Nat → Int → MEState → MEState
  | 0, _, st => st
  | fuel + 1, p, st =>
      if (st.pool.slots a).price ≤ p ∧ p ≠ -1 then
        match st.book.getPriceLevel p .BUY with
        | none => matchBidsWalk a fuel (p - 1) st
        | some lv =>
            if lv.head = none then matchBidsWalk a fuel (p - 1) st
            else
              let st1 := matchBidsLoop a p chainFuel lv.head st
              if (st1.pool.slots a).quantity = 0 then st1
              else matchBidsWalk a fuel (p - 1) st1
      else st

def matchAgainstBids (a : Nat) (st : MEState) : MEState :=
  matchBidsWalk a ((st.book.best_bid_price - (st.pool.slots a).price).toNat + 1)
    st.book.best_bid_price st

/-- `MatchingEngine::handle_new_order`. -/
def handleNewOrder (st : MEState) (cmd : Command) : Option MEState :=
  match st.pool.allocate with
  | none => some { st with orders_rejected := st.orders_rejected + 1 }
  | some (s, pool1) =>
      let st1 := { st with pool := pool1 }
      let st2 := st1.writeS s { st1.pool.slots s with
        order_id := cmd.order_id, side := cmd.side, price := cmd.price,
        quantity := cmd.quantity, timestamp := cmd.producer_timestamp }
      let st3 := if (st2.pool.slots s).order_id < MAX_ORDERS
                 then { st2 with order_map := mapSet st2.order_map (st2.pool.slots s).order_id (some s) }
                 else st2
      let st4 := match (st3.pool.slots s).side with
                 | .BUY => matchAgainstAsks s st3
                 | .SELL => matchAgainstBids s st3
      if 0 < (st4.pool.slots s).quantity then
        (Book.addOrder st4.pool.slots st4.book s).map fun hb =>
          { st4 with pool := { st4.pool with slots := hb.1 }, book := hb.2 }
      else
        let st5 := if (st4.pool.slots s).order_id < MAX_ORDERS
                   then { st4 with order_map := mapSet st4.order_map (st4.pool.slots s).order_id none }
                   else st4
        some { st5 with pool := st5.pool.free s }

/-- `MatchingEngine::handle_cancel_order`. -/
def handleCancelOrder (st : MEState) (order_id : Nat) : Option MEState :=
  if MAX_ORDERS ≤ order_id then some st
  else match st.order_map order_id with
  | none => some st
  | some s =>
      (Book.removeOrder st.pool.slots st.book s).map fun hb =>
        let st1 := { st with pool := { st.pool with slots := hb.1 }, book := hb.2 }
        let st2 := { st1 with order_map := mapSet st1.order_map order_id none }
        { st2 with pool := st2.pool.free s }

/-- One iteration of `MatchingEngine::run` on a dequeued command. -/
def processCommand (st : MEState) (cmd : Command) : Option MEState :=
  let r : Option MEState :=
    match cmd.type with
    | .NEW => handleNewOrder st cmd
    | .CANCEL => handleCancelOrder st cmd.order_id
  r.map fun st1 => { st1 with orders_processed := st1.orders_processed + 1 }

def runCommands : MEState → List Command → Option MEState
  | st, [] => some st
  | st, c :: cs => (processCommand st c).bind fun st1 => runCommands st1 cs

/-! ## Enhanced matching engine (`enhanced_matching_engine.cpp`)

Identical book walk, plus order-type dispatch (LIMIT/IOC/FOK), order statuses
and per-type statistics.  The optional market-data manager is absent
(`market_data_manager_ == nullptr` throughout), so the `publish_*` calls are
no-ops and are dropped. -/

structure OrderTypeStats where
  submitted : Nat
  filled : Nat
  partial_fills : Nat
  cancelled : Nat
  rejected : Nat
deriving DecidableEq, Repr

def OrderTypeStats.initS : OrderTypeStats :=
  { submitted := 0, filled := 0, partial_fills := 0, cancelled := 0, rejected := 0 }

inductive MatchResult where
  | FULLY_MATCHED
  | PARTIALLY_MATCHED
  | NO_MATCH
  | REJECTED
deriving DecidableEq, Repr

structure EMState where
  book : Book
  pool : Pool
  order_map : Nat → Option Nat
  stats : OrderType → OrderTypeStats
  trades : List Trade
  orders_processed : Nat
  trades_executed : Nat
  total_buy_quantity_matched : Nat
  total_sell_quantity_matched : Nat

def EMState.initE : EMState :=
  { book := Book.initB, pool := Pool.initP, order_map := fun _ => none,
    stats := fun _ => OrderTypeStats.initS, trades := [],
    orders_processed := 0, trades_executed := 0,
    total_buy_quantity_matched := 0, total_sell_quantity_matched := 0 }

def EMState.writeS (st : EMState) (s : Nat) (o : OrderRec) : EMState :=
  { st with pool := { st.pool with slots := writeSlot st.pool.slots s o } }

def statUpd (f : OrderType → OrderTypeStats) (t : OrderType)
    (g : OrderTypeStats → OrderTypeStats) : OrderType → OrderTypeStats :=
  fun u => if u = t then g (f u) else f u

/-- `EnhancedMatchingEngine::execute_trade`. -/
def eexecTrade (st : EMState) (aggId restId : Nat) (price : Int) (q : Nat) : EMState :=
  { st with trades := st.trades ++ [⟨aggId, restId, price, q⟩],
            trades_executed := st.trades_executed + 1,
            total_buy_quantity_matched := st.total_buy_quantity_matched + q,
            total_sell_quantity_matched := st.total_sell_quantity_matched + q }

/-- Inner loop of `EnhancedMatchingEngine::match_against_asks` (adds the
FILLED / PARTIAL_FILL status writes to the basic walk). -/
def ematchAsksLoop (a : Nat) (price : Int) : Nat → Option Nat → EMState → EMState
  | 0, _, st => st
  | _, none, st => st
  | fuel + 1, some s, st =>
      if (st.pool.slots a).quantity = 0 then st else
      let nextS := (st.pool.slots s).next
      let tq := min (st.pool.slots a).quantity (st.pool.slots s).quantity
      let st1 := eexecTrade st (st.pool.slots a).order_id (st.pool.slots s).order_id price tq
      let st2 := st1.writeS a { st1.pool.slots a with quantity := (st1.pool.slots a).quantity - tq }
      let st3 := st2.writeS s { st2.pool.slots s with quantity := (st2.pool.slots s).quantity - tq }
      let st4 :=
        if (st3.pool.slots s).quantity = 0 then
          let hl := levelRemoveOrder st3.pool.slots (st3.book.askLevels price) s
          let stR := { st3 with
            pool := { st3.pool with slots := hl.1 },
            book := { st3.book with askLevels := writeLevel st3.book.askLevels price hl.2 } }
          let stF := stR.writeS s { stR.pool.slots s with status := .FILLED }
          let stM := if (stF.pool.slots s).order_id < MAX_ORDERS
                     then { stF with order_map := mapSet stF.order_map (stF.pool.slots s).order_id none }
                     else stF
          { stM with pool := stM.pool.free s }
        else st3.writeS s { st3.pool.slots s with status := .PARTIAL_FILL }
      ematchAsksLoop a price fuel nextS st4

def ematchAsksWalk (a : Nat) : Nat → Int → EMState → EMState
  | 0, _, st => st
  | fuel + 1, p, st =>
      if p ≤ (st.pool.slots a).price ∧ p ≠ -1 then
        match st.book.getPriceLevel p .SELL with
        | none => ematchAsksWalk a fuel (p + 1) st
        | some lv =>
            if lv.head = none then ematchAsksWalk a fuel (p + 1) st
            else
              let st1 := ematchAsksLoop a p chainFuel lv.head st
              if (st1.pool.slots a).quantity = 0 then st1
              else ematchAsksWalk a fuel (p + 1) st1
      else st

def ematchAgainstAsks (a : Nat) (st : EMState) : EMState :=
  ematchAsksWalk a (((st.pool.slots a).price - st.book.best_ask_price).toNat + 1)
    st.book.best_ask_price st

/-- Inner loop of `EnhancedMatchingEngine::match_against_bids`. -/
def ematchBidsLoop (a : Nat) (price : Int) : Nat → Option Nat → EMState → EMState
  | 0, _, st => st
  | _, none, st => st
  | fuel + 1, some s, st =>
      if (st.pool.slots a).quantity = 0 then st else
      let nextS := (st.pool.slots s).next
      let tq := min (st.pool.slots a).quantity (st.pool.slots s).quantity
      let st1 := eexecTrade st (st.pool.slots a).order_id (st.pool.slots s).order_id price tq
      let st2 := st1.writeS a { st1.pool.slots a with quantity := (st1.pool.slots a).quantity - tq }
      let st3 := st2.writeS s { st2.pool.slots s with quantity := (st2.pool.slots s).quantity - tq }
      let st4 :=
        if (st3.pool.slots s).quantity = 0 then
          let hl := levelRemoveOrder st3.pool.slots (st3.book.bidLevels price) s
          let stR := { st3 with
            pool := { st3.pool with slots := hl.1 },
            book := { st3.book with bidLevels := writeLevel st3.book.bidLevels price hl.2 } }
          let stF := stR.writeS s { stR.pool.slots s with status := .FILLED }
          let stM := if (stF.pool.slots s).order_id < MAX_ORDERS
                     then { stF with order_map := mapSet stF.order_map (stF.pool.slots s).order_id none }
                     else stF
          { stM with pool := stM.pool.free s }
        else st3.writeS s { st3.pool.slots s with status := .PARTIAL_FILL }
      ematchBidsLoop a price fuel nextS st4

def ematchBidsWalk (a : Nat) : Nat → Int → EMState → EMState
  | 0, _, st => st
  | fuel + 1, p, st =>
      if (st.pool.slots a).price ≤ p ∧ p ≠ -1 then
        match st.book.getPriceLevel p .BUY with
        | none => ematchBidsWalk a fuel (p - 1) st
        | some lv =>
            if lv.head = none then ematchBidsWalk a fuel (p - 1) st
            else
              let st1 := ematchBidsLoop a p chainFuel lv.head st
              if (st1.pool.slots a).quantity = 0 then st1
              else ematchBidsWalk a fuel (p - 1) st1
      else st

def ematchAgainstBids (a : Nat) (st : EMState) : EMState :=
  ematchBidsWalk a ((st.book.best_bid_price - (st.pool.slots a).price).toNat + 1)
    st.book.best_bid_price st

/-- `EnhancedMatchingEngine::match_limit_order`. -/
def matchLimitOrder (a : Nat) (st : EMState) : EMState × MatchResult :=
  let original_quantity := (st.pool.slots a).quantity
  let st1 := match (st.pool.slots a).side with
             | .BUY => ematchAgainstAsks a st
             | .SELL => ematchAgainstBids a st
  let q1 := (st1.pool.slots a).quantity
  (st1, if q1 = 0 then .FULLY_MATCHED
        else if q1 < original_quantity then .PARTIALLY_MATCHED
        else .NO_MATCH)

/-- `EnhancedMatchingEngine::match_ioc_order`: identical walk; the residual is
dealt with by the caller. -/
def matchIocOrder (a : Nat) (st : EMState) : EMState × MatchResult :=
  matchLimitOrder a st

/-- Ask-side loop of `EnhancedMatchingEngine::calculate_fillable_quantity`.
It sums the (cached) `total_volume` of the non-empty levels, short-circuiting
once the sum reaches the order's quantity. -/
def calcFillableAsks (st : EMState) (a : Nat) : Nat → Int → Nat → Nat
  | 0, _, acc => acc
  | fuel + 1, p, acc =>
      if p ≤ (st.pool.slots a).price ∧ p ≠ -1 then
        match st.book.getPriceLevel p .SELL with
        | none => calcFillableAsks st a fuel (p + 1) acc
        | some lv =>
            if lv.head = none then calcFillableAsks st a fuel (p + 1) acc
            else
              let acc1 := acc + lv.total_volume
              if (st.pool.slots a).quantity ≤ acc1 then acc1
              else calcFillableAsks st a fuel (p + 1) acc1
      else acc

/-- Bid-side loop of `EnhancedMatchingEngine::calculate_fillable_quantity`. -/
def calcFillableBids (st : EMState) (a : Nat) : Nat → Int → Nat → Nat
  | 0, _, acc => acc
  | fuel + 1, p, acc =>
      if (st.pool.slots a).price ≤ p ∧ p ≠ -1 then
        match st.book.getPriceLevel p .BUY with
        | none => calcFillableBids st a fuel (p - 1) acc
        | some lv =>
            if lv.head = none then calcFillableBids st a fuel (p - 1) acc
            else
              let acc1 := acc + lv.total_volume
              if (st.pool.slots a).quantity ≤ acc1 then acc1
              else calcFillableBids st a fuel (p - 1) acc1
      else acc

def calculateFillableQuantity (st : EMState) (a : Nat) : Nat :=
  match (st.pool.slots a).side with
  | .BUY => calcFillableAsks st a (((st.pool.slots a).price - st.book.best_ask_price).toNat + 1)
      st.book.best_ask_price 0
  | .SELL => calcFillableBids st a ((st.book.best_bid_price - (st.pool.slots a).price).toNat + 1)
      st.book.best_bid_price 0

/-- `EnhancedMatchingEngine::can_fill_completely`. -/
def canFillCompletely (st : EMState) (a : Nat) : Bool :=
  (st.pool.slots a).quantity ≤ calculateFillableQuantity st a

/-- `EnhancedMatchingEngine::reject_order` (the reason string goes to stdout
only and is dropped). -/
def rejectOrder (st : EMState) (a : Nat) : EMState :=
  let st1 := st.writeS a { st.pool.slots a with status := .REJECTED }
  { st1 with stats := (statUpd st1.stats (st1.pool.slots a).order_type
      fun g => { g with rejected := g.rejected + 1 }) }

/-- `EnhancedMatchingEngine::match_fok_order`. -/
def matchFokOrder (a : Nat) (st : EMState) : EMState × MatchResult :=
  if canFillCompletely st a then
    let r := matchLimitOrder a st
    if r.2 ≠ .FULLY_MATCHED then (rejectOrder r.1 a, .REJECTED)
    else (r.1, .FULLY_MATCHED)
  else (rejectOrder st a, .REJECTED)

/-- `EnhancedMatchingEngine::match_order`. -/
def ematchOrder (a : Nat) (st : EMState) : EMState × MatchResult :=
  match (st.pool.slots a).order_type with
  | .LIMIT => matchLimitOrder a st
  | .IOC => matchIocOrder a st
  | .FOK => matchFokOrder a st

/-- The initialisation prefix of `EnhancedMatchingEngine::handle_new_order`
(after a successful allocation of slot `s` leaving pool `pool1`): fill the
slot from the command, count the submission, and register the id map entry. -/
def ehandleNewInit (st : EMState) (cmd : Command) (s : Nat) (pool1 : Pool) : EMState :=
  let st1 := { st with pool := pool1 }
  let st2 := st1.writeS s { st1.pool.slots s with
    order_id := cmd.order_id, side := cmd.side, order_type := cmd.order_type,
    price := cmd.price, quantity := cmd.quantity, original_quantity := cmd.quantity,
    status := .PENDING, timestamp := cmd.producer_timestamp }
  let st3 := { st2 with stats := (statUpd st2.stats cmd.order_type
                 fun g => { g with submitted := g.submitted + 1 }) }
  if (st3.pool.slots s).order_id < MAX_ORDERS
  then { st3 with order_map := mapSet st3.order_map (st3.pool.slots s).order_id (some s) }
  else st3

/-- The per-order-type release step of `EnhancedMatchingEngine::handle_new_order`
(the `switch (order->type)` block): rest the residual of a LIMIT order, cancel
and free a residual IOC, free a rejected FOK.  Note: in the IOC and FOK release
branches the id-map clear dereferences `order->order_id` *after*
`order_pool_.free(order)`; the model reads the slot's `order_id` after the
free, exactly as the source does. -/
def ehandleNewRelease (s : Nat) (st5 : EMState) (r : MatchResult) : Option EMState :=
  match (st5.pool.slots s).order_type with
  | .LIMIT =>
      if r = .PARTIALLY_MATCHED ∨ r = .NO_MATCH then
        if 0 < (st5.pool.slots s).quantity then
          (Book.addOrder st5.pool.slots st5.book s).map fun hb =>
            let stA := { st5 with pool := { st5.pool with slots := hb.1 }, book := hb.2 }
            stA.writeS s { stA.pool.slots s with
              status := if r = .PARTIALLY_MATCHED then .PARTIAL_FILL else .PENDING }
        else some st5
      else some st5
  | .IOC =>
      if 0 < (st5.pool.slots s).quantity then
        let stC := st5.writeS s { st5.pool.slots s with status := .CANCELLED }
        let stS := { stC with stats := (statUpd stC.stats .IOC
                       fun g => { g with cancelled := g.cancelled + 1 }) }
        let stF := { stS with pool := stS.pool.free s }
        some (if (stF.pool.slots s).order_id < MAX_ORDERS
              then { stF with order_map := mapSet stF.order_map (stF.pool.slots s).order_id none }
              else stF)
      else some st5
  | .FOK =>
      if r = .REJECTED then
        let stF := { st5 with pool := st5.pool.free s }
        some (if (stF.pool.slots s).order_id < MAX_ORDERS
              then { stF with order_map := mapSet stF.order_map (stF.pool.slots s).order_id none }
              else stF)
      else some st5

/-- The closing step of `EnhancedMatchingEngine::handle_new_order`: mark a
fully consumed order FILLED (clearing its map entry and freeing it), or count
a partial fill. -/
def ehandleNewFinish (s : Nat) (r : MatchResult) (st7 : EMState) : EMState :=
  if (st7.pool.slots s).quantity = 0 ∧ (st7.pool.slots s).status ≠ .CANCELLED ∧
     (st7.pool.slots s).status ≠ .REJECTED then
    let stG := st7.writeS s { st7.pool.slots s with status := .FILLED }
    let stH := { stG with stats := (statUpd stG.stats (stG.pool.slots s).order_type
                   fun g => { g with filled := g.filled + 1 }) }
    let stI := if (stH.pool.slots s).order_id < MAX_ORDERS
               then { stH with order_map := mapSet stH.order_map (stH.pool.slots s).order_id none }
               else stH
    { stI with pool := stI.pool.free s }
  else if r = .PARTIALLY_MATCHED then
    { st7 with stats := (statUpd st7.stats (st7.pool.slots s).order_type
        fun g => { g with partial_fills := g.partial_fills + 1 }) }
  else st7

/-- `EnhancedMatchingEngine::handle_new_order`: allocate, initialise, match,
release the residual per order type, and finish. -/
def ehandleNewOrder (st : EMState) (cmd : Command) : Option EMState :=
  match st.pool.allocate with
  | none => some st
  | some (s, pool1) =>
      let st4 := ehandleNewInit st cmd s pool1
      let mr := ematchOrder s st4
      (ehandleNewRelease s mr.1 mr.2).map (ehandleNewFinish s mr.2)

/-- `EnhancedMatchingEngine::handle_cancel_order`. -/
def ehandleCancelOrder (st : EMState) (order_id : Nat) : Option EMState :=
  if MAX_ORDERS ≤ order_id then some st
  else match st.order_map order_id with
  | none => some st
  | some s =>
      (Book.removeOrder st.pool.slots st.book s).map fun hb =>
        let st1 := { st with pool := { st.pool with slots := hb.1 }, book := hb.2 }
        let st2 := st1.writeS s { st1.pool.slots s with status := .CANCELLED }
        let st3 := { st2 with stats := (statUpd st2.stats (st2.pool.slots s).order_type
                       fun g => { g with cancelled := g.cancelled + 1 }) }
        let st4 := { st3 with order_map := mapSet st3.order_map order_id none }
        { st4 with pool := st4.pool.free s }

/-- One iteration of `EnhancedMatchingEngine::run` on a dequeued command. -/
def eprocessCommand (st : EMState) (cmd : Command) : Option EMState :=
  let r : Option EMState :=
    match cmd.type with
    | .NEW => ehandleNewOrder st cmd
    | .CANCEL => ehandleCancelOrder st cmd.order_id
  r.map fun st1 => { st1 with orders_processed := st1.orders_processed + 1 }

def erunCommands : EMState → List Command → Option EMState
  | st, [] => some st
  | st, c :: cs => (eprocessCommand st c).bind fun st1 => erunCommands st1 cs

/-! ## SPSC ring buffer (`spsc_ring_buffer.cpp`)

The two atomic indices become plain naturals: the model captures the
functional (sequential) behaviour of the queue; the acquire/release memory
orderings themselves are a hardware-level concern outside the embedding.
`x & RING_BUFFER_MASK` equals `x % RING_BUFFER_SIZE` for the power-of-two
size, and the stored indices are always already reduced. -/

structure Ring where
  head : Nat
  tail : Nat
  buffer : Nat → Command

/-- A default-constructed `Command` (contents irrelevant). -/
def defaultCmd : Command :=
  { type := .NEW, order_id := 0, side := .BUY, order_type := .LIMIT, price := 0,
    quantity := 0, producer_timestamp := 0 }

/-- `SPSCRingBuffer()`. -/
def Ring.initR : Ring := { head := 0, tail := 0, buffer := fun _ => defaultCmd }

/-- `SPSCRingBuffer::enqueue`: fails iff advancing `head` would make it hit
`tail`; otherwise writes the slot at `head` and publishes the new `head`. -/
def Ring.enqueue (r : Ring) (cmd : Command) : Bool × Ring :=
  let next_head := (r.head + 1) % RING_BUFFER_SIZE
  if next_head = r.tail then (false, r)
  else (true, { r with buffer := fun i => if i = r.head then cmd else r.buffer i,
                       head := next_head })

/-- `SPSCRingBuffer::dequeue`: fails iff `tail = head`; otherwise reads the
slot at `tail` and publishes the advanced `tail`. -/
def Ring.dequeue (r : Ring) : Option Command × Ring :=
  if r.tail = r.head then (none, r)
  else (some (r.buffer r.tail), { r with tail := (r.tail + 1) % RING_BUFFER_SIZE })

/-- Number of commands currently queued. -/
def Ring.count (r : Ring) : Nat := (r.head + RING_BUFFER_SIZE - r.tail) % RING_BUFFER_SIZE

/-- Abstraction map: the queued commands, oldest first. -/
def Ring.contents (r : Ring) : List Command :=
  (List.range r.count).map fun i => r.buffer ((r.tail + i) % RING_BUFFER_SIZE)

/-- Both indices in range (established by the constructor, preserved by the
masked stores). -/
def Ring.wfR (r : Ring) : Prop := r.head < RING_BUFFER_SIZE ∧ r.tail < RING_BUFFER_SIZE

inductive RingOp where
  | enq (cmd : Command)
  | deq

/-- Run a sequence of queue operations; result: final ring, successfully
enqueued commands in order, successfully dequeued commands in order. -/
def runRing : Ring → List RingOp → Ring × List Command × List Command
  | r, [] => (r, [], [])
  | r, .enq c :: ops =>
      let e := r.enqueue c
      let rest := runRing e.2 ops
      (rest.1, (if e.1 then [c] else []) ++ rest.2.1, rest.2.2)
  | r, .deq :: ops =>
      let d := r.dequeue
      let rest := runRing d.2 ops
      (rest.1, rest.2.1, (match d.1 with | some c => [c] | none => []) ++ rest.2.2)

/-! ## Helper definitions for the statements -/

/-- Shorthand for a NEW command. -/
def newCmd (id : Nat) (sd : Side) (ot : OrderType) (p : Int) (q : Nat) : Command :=
  { type := .NEW, order_id := id, side := sd, order_type := ot, price := p,
    quantity := q, producer_timestamp := id }

/-- `rangeEmpty f d lo n` holds iff the `n` levels `f lo, …, f (lo+n-1)` are
all empty.  Divide-and-conquer over the range (depth parameter `d`) so that a
full 10001-level sweep evaluates with only logarithmic recursion depth. -/
def rangeEmpty (f : Int → Level) : Nat → Int → Nat → Bool
  | _, _, 0 => true
  | _, lo, 1 => (f lo).head.isNone
  | 0, _, _ => true
  | d + 1, lo, n => rangeEmpty f d lo (n / 2) && rangeEmpty f d (lo + (n / 2 : Nat)) (n - n / 2)

/-- The whole ask side of the price grid is empty. -/
def askSideEmpty (bk : Book) : Bool := rangeEmpty bk.askLevels 20 PRICE_MIN PRICE_LEVELS

/-- The whole bid side of the price grid is empty. -/
def bidSideEmpty (bk : Book) : Bool := rangeEmpty bk.bidLevels 20 PRICE_MIN PRICE_LEVELS

/-- `chainOKb h cur l` holds iff following the `next` links from `cur`
enumerates exactly the slots `l` (the intrusive list of a price level). -/
def chainOKb (h : Heap) : Option Nat → List Nat → Bool
  | none, [] => true
  | none, _ :: _ => false
  | some _, [] => false
  | some s, s2 :: t => decide (s = s2) && chainOKb h (h s2).next t

/-- `chainPrevOK h pr l` holds iff each slot of `l` has its `prev` link set to
its predecessor (`pr` before the first element). -/
def chainPrevOK (h : Heap) : Option Nat → List Nat → Bool
  | _, [] => true
  | pr, s :: t => decide ((h s).prev = pr) && chainPrevOK h (some s) t

/-- Specification of filling one price level in FIFO order: trade
`min (remaining, resting)` against each resting order `(order_id, quantity)`
in arrival order, head first, until the aggressor is exhausted.  Returns the
trades and the aggressor's remaining quantity. -/
def specFillLevel (aggId : Nat) : Nat → Int → List (Nat × Nat) → List Trade × Nat
  | rem, _, [] => ([], rem)
  | rem, p, (oid, q) :: t =>
      if rem = 0 then ([], 0)
      else
        let tq := min rem q
        let r := specFillLevel aggId (rem - tq) p t
        (⟨aggId, oid, p, tq⟩ :: r.1, r.2)

/-- Specification of a BUY aggressor's walk: visit ask prices in strictly
ascending order starting from `p`, up to the aggressor's `limit`, filling each
non-empty level completely in FIFO order before moving to the next (worse)
price. -/
def specWalkBuy (aggId : Nat) (limit : Int) (data : Int → List (Nat × Nat)) :
    Nat → Int → Nat → List Trade × Nat
  | 0, _, rem => ([], rem)
  | fuel + 1, p, rem =>
      if p ≤ limit ∧ p ≠ -1 then
        if p < PRICE_MIN ∨ PRICE_MAX < p then specWalkBuy aggId limit data fuel (p + 1) rem
        else if data p = [] then specWalkBuy aggId limit data fuel (p + 1) rem
        else
          let r1 := specFillLevel aggId rem p (data p)
          if r1.2 = 0 then (r1.1, 0)
          else
            let r2 := specWalkBuy aggId limit data fuel (p + 1) r1.2
            (r1.1 ++ r2.1, r2.2)
      else ([], rem)

/-- Specification of a SELL aggressor's walk: visit bid prices in strictly
descending order starting from `p`, down to the aggressor's `limit`, filling
each non-empty level completely in FIFO order before moving to the next
(worse) price. -/
def specWalkSell (aggId : Nat) (limit : Int) (data : Int → List (Nat × Nat)) :
    Nat → Int → Nat → List Trade × Nat
  | 0, _, rem => ([], rem)
  | fuel + 1, p, rem =>
      if limit ≤ p ∧ p ≠ -1 then
        if p < PRICE_MIN ∨ PRICE_MAX < p then specWalkSell aggId limit data fuel (p - 1) rem
        else if data p = [] then specWalkSell aggId limit data fuel (p - 1) rem
        else
          let r1 := specFillLevel aggId rem p (data p)
          if r1.2 = 0 then (r1.1, 0)
          else
            let r2 := specWalkSell aggId limit data fuel (p - 1) r1.2
            (r1.1 ++ r2.1, r2.2)
      else ([], rem)

def c5Rest1 : OrderRec :=
  { OrderRec.init with order_id := 1, side := .SELL, price := 5000, quantity := 30 }

def c5Rest2 : OrderRec :=
  { OrderRec.init with order_id := 2, side := .SELL, price := 5001, quantity := 40 }

def c5Agg : OrderRec :=
  { OrderRec.init with order_id := 3, side := .BUY, price := 5001, quantity := 60 }

def c5Heap : Heap :=
  writeSlot (writeSlot (writeSlot MEState.initE.pool.slots 0 c5Rest1) 1 c5Rest2) 2 c5Agg

def c5Asks : Int → Level :=
  writeLevel (writeLevel MEState.initE.book.askLevels 5000 ⟨30, some 0, some 0⟩) 5001
    ⟨40, some 1, some 1⟩

def c5St : MEState :=
  { MEState.initE with
    pool := { MEState.initE.pool with slots := c5Heap },
    book := { MEState.initE.book with askLevels := c5Asks, best_ask_price := 5000 } }

def c5L : Int → List Nat := fun q => if q = 5000 then [0] else if q = 5001 then [1] else []

def c5Data : Int → List (Nat × Nat) :=
  fun q => if q = 5000 then [(1, 30)] else if q = 5001 then [(2, 40)] else []

def c5RestB : OrderRec :=
  { OrderRec.init with order_id := 1, side := .BUY, price := 6000, quantity := 25 }

def c5AggS : OrderRec :=
  { OrderRec.init with order_id := 3, side := .SELL, price := 5999, quantity := 50 }

def c5HeapS : Heap :=
  writeSlot (writeSlot MEState.initE.pool.slots 0 c5RestB) 2 c5AggS

def c5Bids : Int → Level :=
  writeLevel MEState.initE.book.bidLevels 6000 ⟨25, some 0, some 0⟩

def c5StS : MEState :=
  { MEState.initE with
    pool := { MEState.initE.pool with slots := c5HeapS },
    book := { MEState.initE.book with bidLevels := c5Bids, best_bid_price := 6000 } }

def c5LS : Int → List Nat := fun q => if q = 6000 then [0] else []

def c5DataS : Int → List (Nat × Nat) := fun q => if q = 6000 then [(1, 25)] else []

/-! # Theorems -/

/-- Soundness of the divide-and-conquer emptiness sweep: with enough depth it
really checks every level in the range. -/
theorem rangeEmpty_sound : ∀ (d n : Nat) (f : Int → Level) (lo : Int), n ≤ 2 ^ d →
    rangeEmpty f d lo n = true → ∀ k : Nat, k < n → (f (lo + (k : Int))).head = none := by
  intro d
  induction d with
  | zero =>
      intro n f lo hn h k hk
      interval_cases n
      · omega
      · simp only [rangeEmpty, Option.isNone_iff_eq_none] at h
        have : k = 0 := by omega
        subst this
        simpa using h
  | succ d ih =>
      intro n f lo hn h k hk
      match n, hk with
      | 1, _ =>
          simp only [rangeEmpty, Option.isNone_iff_eq_none] at h
          have : k = 0 := by omega
          subst this
          simpa using h
      | (m + 2), _ =>
          rw [show rangeEmpty f (d + 1) lo (m + 2)
                = (rangeEmpty f d lo ((m + 2) / 2) &&
                   rangeEmpty f d (lo + (((m + 2) / 2 : Nat) : Int)) ((m + 2) - (m + 2) / 2))
              from rfl, Bool.and_eq_true] at h
          rcases h with ⟨h1, h2⟩
          by_cases hk2 : k < (m + 2) / 2
          · exact ih _ f lo (by omega) h1 k hk2
          · have := ih _ f (lo + (((m + 2) / 2 : Nat) : Int)) (by omega) h2 (k - (m + 2) / 2)
              (by omega)
            have harith : lo + (((m + 2) / 2 : Nat) : Int) + ((k - (m + 2) / 2 : Nat) : Int)
                = lo + (k : Int) := by
              push_cast [Nat.cast_sub (by omega : (m + 2) / 2 ≤ k)]
              ring
            rwa [harith] at this

/-- If `askSideEmpty` reports `true`, every ask level in `[PRICE_MIN, PRICE_MAX]`
has a null head. -/
theorem askSideEmpty_sound (bk : Book) (h : askSideEmpty bk = true) :
    ∀ p : Int, PRICE_MIN ≤ p → p ≤ PRICE_MAX → (bk.askLevels p).head = none := by
  intro p h1 h2
  have hp : p = (0 : Int) + ((p.toNat : Nat) : Int) := by
    simp only [PRICE_MIN] at h1
    omega
  rw [hp]
  exact rangeEmpty_sound 20 PRICE_LEVELS bk.askLevels 0 (by norm_num [PRICE_LEVELS]) h p.toNat
    (by simp only [PRICE_MIN, PRICE_MAX, PRICE_LEVELS] at h1 h2 ⊢; omega)

/-- C1.  The claim is violated by the matching walk: the walk decrements the
resting order's `quantity` but never `total_volume`, and the removal that
follows subtracts the already-zero quantity.  Failing input (basic engine):
`NEW(1, SELL, 5000, 100)` then `NEW(2, BUY, 5000, 30)`.  Afterwards level 5000
on the ask side holds exactly the order in slot 0 (head = slot 0, whose `next`
is null) with remaining quantity 70, yet `total_volume = 100 ≠ 70`.  Extending
the run with `NEW(3, BUY, 5000, 70)` empties the level
(`head = tail = null`) while `total_volume` is still 100, refuting
`head == null ⇔ aggregate_volume == 0` as well. -/
theorem c1_level_volume_not_conserved :
    ((runCommands MEState.initE
        [newCmd 1 .SELL .LIMIT 5000 100, newCmd 2 .BUY .LIMIT 5000 30]).map fun s =>
      ((s.book.askLevels 5000).head, (s.pool.slots 0).quantity, (s.pool.slots 0).next,
       (s.book.askLevels 5000).total_volume))
      = some (some 0, 70, none, 100)
    ∧ ((runCommands MEState.initE
        [newCmd 1 .SELL .LIMIT 5000 100, newCmd 2 .BUY .LIMIT 5000 30,
         newCmd 3 .BUY .LIMIT 5000 70]).map fun s =>
      ((s.book.askLevels 5000).head, (s.book.askLevels 5000).tail,
       (s.book.askLevels 5000).total_volume))
      = some (none, none, 100) :=
  ⟨rfl, rfl⟩

/-- C2.  The claim is violated: `calculate_fillable_quantity` sums the cached
`total_volume` values, which the matching walk leaves stale (see C1), so an
FOK whose true fillable quantity is too small can still pass `can_fill_completely`,
trade, and only then be rejected.  Failing input (enhanced engine):
`NEW(1, SELL, LIMIT, 5000, 100)`, `NEW(2, BUY, LIMIT, 5000, 30)`,
`NEW(3, BUY, FOK, 5000, 80)`.  Before the FOK, the opposite side holds a single
resting order with remaining 70 < 80 (first conjunct), yet processing the FOK
emits a trade of quantity 70, removes the resting order from the book, and ends
with the FOK REJECTED (second conjunct) — not zero trades and an unchanged
book as the claim requires.  (The FOK lands in pool slot 1.) -/
theorem c2_fok_trades_before_reject :
    ((erunCommands EMState.initE
        [newCmd 1 .SELL .LIMIT 5000 100, newCmd 2 .BUY .LIMIT 5000 30]).map fun s =>
      ((s.book.askLevels 5000).head, (s.pool.slots 0).quantity, (s.pool.slots 0).next))
      = some (some 0, 70, none)
    ∧ ((erunCommands EMState.initE
        [newCmd 1 .SELL .LIMIT 5000 100, newCmd 2 .BUY .LIMIT 5000 30,
         newCmd 3 .BUY .FOK 5000 80]).map fun s =>
      (s.trades, (s.pool.slots 1).status, (s.stats .FOK).rejected,
       (s.book.askLevels 5000).head))
      = some ([⟨2, 1, 5000, 30⟩, ⟨3, 1, 5000, 70⟩], .REJECTED, 1, none) :=
  ⟨rfl, rfl⟩

/-- C3.  The claim is violated: the matching walk removes fully matched resting
orders with `level->remove_order` directly, bypassing `Book::remove_order`, so
the cached best ask is never rescanned when the walk empties a level.  Failing
input (basic engine): `NEW(1, SELL, 5000, 50)` then `NEW(2, BUY, 5000, 50)`.
The trade empties the only ask level, so every ask level in the price grid is
empty afterwards, yet the cached `best_ask` is still 5000 instead of the
sentinel -1. -/
theorem c3_best_ask_stale_after_walk :
    ((runCommands MEState.initE
        [newCmd 1 .SELL .LIMIT 5000 50, newCmd 2 .BUY .LIMIT 5000 50]).map fun s =>
      (s.book.best_ask_price, askSideEmpty s.book))
      = some (5000, true) :=
  rfl

/-- C4.  The claim is violated for the book's `best_bid`/`best_ask` fields
(the values `handle_new` itself consults and the accessors expose).  Failing
input (basic engine): `NEW(1, SELL, 5001, 50)`, `NEW(2, SELL, 7000, 50)`,
`NEW(3, BUY, 6000, 50)` — the aggressor empties ask level 5001 but `best_ask`
stays 5001 (see C3) — then `NEW(4, BUY, 6000, 50)`, which rests at 6000 and
sets `best_bid := 6000`.  After that `handle_new` returns, both sides are
non-empty (a bid rests at 6000 in slot 2, an ask rests at 7000 in slot 1), yet
`best_bid = 6000 ≥ 5001 = best_ask`: a crossed book by the engine's own
tracked best prices.  (The actual non-empty levels, 6000 < 7000, are not
crossed; the violation is in the cached values the claim refers to.) -/
theorem c4_crossed_cached_best :
    ((runCommands MEState.initE
        [newCmd 1 .SELL .LIMIT 5001 50, newCmd 2 .SELL .LIMIT 7000 50,
         newCmd 3 .BUY .LIMIT 6000 50, newCmd 4 .BUY .LIMIT 6000 50]).map fun s =>
      (s.book.best_bid_price, s.book.best_ask_price,
       (s.book.bidLevels 6000).head, (s.book.askLevels 7000).head,
       decide (s.book.best_bid_price < s.book.best_ask_price)))
      = some (6000, 5001, some 2, some 1, false) :=
  rfl

/-! ## Small rewriting lemmas -/

theorem writeSlot_same (h : Heap) (s : Nat) (o : OrderRec) : writeSlot h s o s = o := by
  simp [writeSlot]

theorem writeSlot_other (h : Heap) (s : Nat) (o : OrderRec) (j : Nat) (hj : j ≠ s) :
    writeSlot h s o j = h j := by
  simp [writeSlot, hj]

theorem mapSet_same (m : Nat → Option Nat) (i : Nat) (v : Option Nat) : mapSet m i v i = v := by
  simp [mapSet]

theorem mapSet_other (m : Nat → Option Nat) (i : Nat) (v : Option Nat) (j : Nat) (hj : j ≠ i) :
    mapSet m i v j = m j := by
  simp [mapSet, hj]

/-! ## The matching walk does nothing for an exhausted aggressor -/

theorem matchAsksLoop_zero (a : Nat) (p : Int) (fuel : Nat) (cur : Option Nat) (st : MEState)
    (h : (st.pool.slots a).quantity = 0) : matchAsksLoop a p fuel cur st = st := by
  cases fuel with
  | zero => cases cur <;> simp [matchAsksLoop]
  | succ f =>
      cases cur with
      | none => simp [matchAsksLoop]
      | some s => simp only [matchAsksLoop, h, if_pos]

theorem matchBidsLoop_zero (a : Nat) (p : Int) (fuel : Nat) (cur : Option Nat) (st : MEState)
    (h : (st.pool.slots a).quantity = 0) : matchBidsLoop a p fuel cur st = st := by
  cases fuel with
  | zero => cases cur <;> simp [matchBidsLoop]
  | succ f =>
      cases cur with
      | none => simp [matchBidsLoop]
      | some s => simp only [matchBidsLoop, h, if_pos]

theorem matchAsksWalk_zero (a : Nat) : ∀ (fuel : Nat) (p : Int) (st : MEState),
    (st.pool.slots a).quantity = 0 → matchAsksWalk a fuel p st = st := by
  intro fuel
  induction fuel with
  | zero => intro p st _; rfl
  | succ f ih =>
      intro p st h
      rw [matchAsksWalk]
      by_cases hc : p ≤ (st.pool.slots a).price ∧ p ≠ -1
      · rw [if_pos hc]
        rcases hgl : st.book.getPriceLevel p Side.SELL with _ | lv
        · exact ih _ _ h
        · by_cases hh : lv.head = none
          · simp only [hh, if_true]
            exact ih _ _ h
          · simp [hh, matchAsksLoop_zero a p chainFuel lv.head st h, h]
      · rw [if_neg hc]

theorem matchBidsWalk_zero (a : Nat) : ∀ (fuel : Nat) (p : Int) (st : MEState),
    (st.pool.slots a).quantity = 0 → matchBidsWalk a fuel p st = st := by
  intro fuel
  induction fuel with
  | zero => intro p st _; rfl
  | succ f ih =>
      intro p st h
      rw [matchBidsWalk]
      by_cases hc : (st.pool.slots a).price ≤ p ∧ p ≠ -1
      · rw [if_pos hc]
        rcases hgl : st.book.getPriceLevel p Side.BUY with _ | lv
        · exact ih _ _ h
        · by_cases hh : lv.head = none
          · simp only [hh, if_true]
            exact ih _ _ h
          · simp [hh, matchBidsLoop_zero a p chainFuel lv.head st h, h]
      · rw [if_neg hc]

/-- The ask walk exits immediately when it starts at the empty-side
sentinel (`price != -1` fails on the first iteration). -/
theorem matchAsksWalk_neg1 (a : Nat) (f : Nat) (st : MEState) :
    matchAsksWalk a (f + 1) (-1) st = st := by
  rw [matchAsksWalk]
  simp

/-- C8 counterexample.  The claim requires a zero-quantity NEW to be "dropped
with the rejection counter incremented".  On input `NEW(1, BUY, 5000, qty=0)`
from the initial state, the engine allocates a slot, runs the walk, emits no
trade, frees the slot — and leaves `orders_rejected` at 0: the counter is not
incremented (second conjunct refutes the claim's required value 1). -/
theorem c8_counterexample_zero_quantity :
    ((runCommands MEState.initE [newCmd 1 .BUY .LIMIT 5000 0]).map fun s =>
      (s.orders_rejected, s.trades.length, s.pool.free_head, s.order_map 1))
      = some (0, 0, some 0, none)
    ∧ ¬ ((runCommands MEState.initE [newCmd 1 .BUY .LIMIT 5000 0]).map fun s =>
          s.orders_rejected) = some 1 :=
  ⟨rfl, by decide⟩

/-- C8 (amended).  `handle_new_order` performs no price or quantity
validation; the rejection counter counts only pool exhaustion.  (1) A
zero-quantity NEW is processed normally: it allocates a slot, the matching
walk trades nothing, the slot is freed, and the book, the trade stream and
`orders_rejected` are all left unchanged — the command is not "rejected", it
is silently absorbed.  (2) A NEW whose price lies outside
`[PRICE_MIN, PRICE_MAX]` is not rejected either: if any residual quantity
must be inserted (here: a BUY with positive quantity and no ask liquidity,
`best_ask = -1`), `Book::add_order` indexes the level vector out of bounds —
undefined behaviour, modelled as `none`. -/
theorem c8_no_price_or_quantity_validation :
    (∀ (st : MEState) (cmd : Command) (s : Nat),
        st.pool.free_head = some s → cmd.quantity = 0 →
        ∃ s1, handleNewOrder st cmd = some s1 ∧
          s1.book = st.book ∧ s1.trades = st.trades ∧
          s1.orders_rejected = st.orders_rejected ∧ s1.pool.free_head = some s)
    ∧ (∀ (st : MEState) (cmd : Command) (s : Nat),
        st.pool.free_head = some s → cmd.side = .BUY → 0 < cmd.quantity →
        (cmd.price < PRICE_MIN ∨ PRICE_MAX < cmd.price) →
        st.book.best_ask_price = -1 →
        handleNewOrder st cmd = none) := by
  constructor
  · intro st cmd s hfree hq
    have halloc : st.pool.allocate =
        some (s, { slots := writeSlot st.pool.slots s
                     { st.pool.slots s with next := none, prev := none },
                   free_head := (st.pool.slots s).next,
                   allocated_count := st.pool.allocated_count + 1 }) := by
      simp [Pool.allocate, hfree]
    obtain ⟨ty, oid, sd, ot, pr, q, ts⟩ := cmd
    simp only at hq
    subst hq
    unfold handleNewOrder
    rw [halloc]
    by_cases hid : oid < MAX_ORDERS <;>
      [simp only [MEState.writeS, writeSlot_same, if_pos hid];
       simp only [MEState.writeS, writeSlot_same, if_neg hid]] <;>
    cases sd <;>
      simp only [matchAgainstAsks, matchAgainstBids] <;>
      (first
        | rw [matchAsksWalk_zero s _ _ _ (by simp [writeSlot])]
        | rw [matchBidsWalk_zero s _ _ _ (by simp [writeSlot])]) <;>
      simp [Pool.free, writeSlot, mapSet, hid]
  · intro st cmd s hfree hsd hq hpr hba
    have halloc : st.pool.allocate =
        some (s, { slots := writeSlot st.pool.slots s
                     { st.pool.slots s with next := none, prev := none },
                   free_head := (st.pool.slots s).next,
                   allocated_count := st.pool.allocated_count + 1 }) := by
      simp [Pool.allocate, hfree]
    obtain ⟨ty, oid, sd, ot, pr, q, ts⟩ := cmd
    simp only at hsd hq hpr
    subst hsd
    unfold handleNewOrder
    rw [halloc]
    by_cases hid : oid < MAX_ORDERS <;>
      [simp only [MEState.writeS, writeSlot_same, if_pos hid];
       simp only [MEState.writeS, writeSlot_same, if_neg hid]] <;>
    · simp only [matchAgainstAsks, hba, writeSlot_same]
      rw [matchAsksWalk_neg1]
      simp [writeSlot, Book.addOrder, hpr, Nat.pos_iff_ne_zero.mp hq]

/-- Witness for `c8_no_price_or_quantity_validation` at concrete inputs. -/
theorem c8_no_price_or_quantity_validation_witness :
    (∃ s1, handleNewOrder MEState.initE (newCmd 1 .BUY .LIMIT 5000 0) = some s1 ∧
      s1.book = MEState.initE.book ∧ s1.trades = MEState.initE.trades ∧
      s1.orders_rejected = MEState.initE.orders_rejected ∧ s1.pool.free_head = some 0)
    ∧ handleNewOrder MEState.initE (newCmd 1 .BUY .LIMIT 20000 5) = none :=
  ⟨c8_no_price_or_quantity_validation.1 MEState.initE (newCmd 1 .BUY .LIMIT 5000 0) 0 rfl rfl,
   c8_no_price_or_quantity_validation.2 MEState.initE (newCmd 1 .BUY .LIMIT 20000 5) 0 rfl rfl
     (by decide) (Or.inr (by decide)) rfl⟩


/-! Arithmetic facts about the power-of-two index ring, stated standalone. -/

theorem ringAux_full_iff (h t : Nat) (h1 : h < 1048576) (h2 : t < 1048576) :
    ((h + 1) % 1048576 = t) ↔ (h + 1048576 - t) % 1048576 = 1048576 - 1 := by
  constructor <;> (intro hx; omega)

theorem ringAux_count_succ (h t : Nat) (h1 : h < 1048576) (h2 : t < 1048576)
    (hne : ¬((h + 1) % 1048576 = t)) :
    ((h + 1) % 1048576 + 1048576 - t) % 1048576 = (h + 1048576 - t) % 1048576 + 1 := by
  omega

theorem ringAux_idx_ne (h t i : Nat) (h1 : h < 1048576) (h2 : t < 1048576)
    (hi : i < (h + 1048576 - t) % 1048576) : (t + i) % 1048576 ≠ h := by
  omega

theorem ringAux_last (h t : Nat) (h1 : h < 1048576) (h2 : t < 1048576) :
    (t + (h + 1048576 - t) % 1048576) % 1048576 = h := by
  omega

theorem ringAux_count_zero (h t : Nat) (h1 : h < 1048576) (h2 : t < 1048576) :
    (t = h) ↔ (h + 1048576 - t) % 1048576 = 0 := by
  constructor <;> (intro hx; omega)

theorem ringAux_deq_succ (h t : Nat) (h1 : h < 1048576) (h2 : t < 1048576)
    (hne : ¬(t = h)) :
    (h + 1048576 - t) % 1048576 = (h + 1048576 - (t + 1) % 1048576) % 1048576 + 1 := by
  omega

theorem ringAux_lt (h t : Nat) (h1 : h < 1048576) : (h + 1) % 1048576 < 1048576 := by
  omega

/-! Queue refinement: step lemmas. -/

theorem Ring.contents_length (r : Ring) : r.contents.length = r.count := by
  simp [Ring.contents]

theorem ring_enqueue_false_iff (r : Ring) (c : Command) (hw : r.wfR) :
    (r.enqueue c).1 = false ↔ r.count = RING_BUFFER_SIZE - 1 := by
  obtain ⟨rh, rt, rb⟩ := r
  obtain ⟨h1, h2⟩ := hw
  simp only [RING_BUFFER_SIZE] at h1 h2
  simp only [Ring.enqueue, Ring.count, RING_BUFFER_SIZE]
  by_cases hfull : (rh + 1) % 1048576 = rt
  · simp only [if_pos hfull, true_iff]
    exact (ringAux_full_iff rh rt h1 h2).mp hfull
  · simp only [if_neg hfull]
    constructor
    · intro hx
      exact absurd hx (by simp)
    · intro hx
      exact (hfull ((ringAux_full_iff rh rt h1 h2).mpr hx)).elim

theorem ring_enqueue_fail_id (r : Ring) (c : Command) (h : (r.enqueue c).1 = false) :
    (r.enqueue c).2 = r := by
  simp only [Ring.enqueue] at *
  by_cases hfull : (r.head + 1) % RING_BUFFER_SIZE = r.tail
  · simp [hfull]
  · simp [hfull] at h

theorem ring_enqueue_ok (r : Ring) (c : Command) (hw : r.wfR) (h : (r.enqueue c).1 = true) :
    (r.enqueue c).2.wfR ∧ (r.enqueue c).2.contents = r.contents ++ [c] := by
  obtain ⟨rh, rt, rb⟩ := r
  obtain ⟨h1, h2⟩ := hw
  simp only [RING_BUFFER_SIZE] at h1 h2
  simp only [Ring.enqueue, RING_BUFFER_SIZE] at h ⊢
  by_cases hfull : (rh + 1) % 1048576 = rt
  · simp [hfull] at h
  · simp only [if_neg hfull]
    constructor
    · exact ⟨ringAux_lt rh rt h1, h2⟩
    · simp only [Ring.contents, Ring.count, RING_BUFFER_SIZE]
      rw [ringAux_count_succ rh rt h1 h2 hfull, List.range_succ, List.map_append]
      congr 1
      · apply List.map_congr_left
        intro i hi
        simp only [List.mem_range] at hi
        simp [ringAux_idx_ne rh rt i h1 h2 hi]
      · simp [ringAux_last rh rt h1 h2]

theorem ring_dequeue_none_iff (r : Ring) (hw : r.wfR) :
    (r.dequeue).1 = none ↔ r.contents = [] := by
  obtain ⟨rh, rt, rb⟩ := r
  obtain ⟨h1, h2⟩ := hw
  simp only [RING_BUFFER_SIZE] at h1 h2
  simp only [Ring.dequeue]
  by_cases hemp : rt = rh
  · simp only [if_pos hemp, true_iff]
    simp only [Ring.contents, Ring.count, RING_BUFFER_SIZE]
    simp [(ringAux_count_zero rh rt h1 h2).mp hemp]
  · simp only [if_neg hemp]
    constructor
    · intro hx
      exact absurd hx (by simp)
    · intro hc
      exfalso
      have hlen := congrArg List.length hc
      rw [Ring.contents_length] at hlen
      simp only [Ring.count, RING_BUFFER_SIZE, List.length_nil] at hlen
      exact hemp ((ringAux_count_zero rh rt h1 h2).mpr hlen)

theorem ring_dequeue_fail_id (r : Ring) (h : (r.dequeue).1 = none) :
    (r.dequeue).2 = r := by
  simp only [Ring.dequeue] at *
  by_cases hemp : r.tail = r.head
  · simp [hemp]
  · simp [hemp] at h

theorem ring_dequeue_ok (r : Ring) (c : Command) (hw : r.wfR) (h : (r.dequeue).1 = some c) :
    (r.dequeue).2.wfR ∧ r.contents = c :: (r.dequeue).2.contents := by
  obtain ⟨rh, rt, rb⟩ := r
  obtain ⟨h1, h2⟩ := hw
  simp only [RING_BUFFER_SIZE] at h1 h2
  simp only [Ring.dequeue] at h ⊢
  by_cases hemp : rt = rh
  · simp [hemp] at h
  · simp only [if_neg hemp, Option.some.injEq] at h ⊢
    constructor
    · exact ⟨h1, ringAux_lt rt rh h2⟩
    · simp only [Ring.contents, Ring.count, RING_BUFFER_SIZE]
      rw [ringAux_deq_succ rh rt h1 h2 hemp, List.range_succ_eq_map, List.map_cons]
      congr 1
      · rw [← h]
        congr 1
        simp [Nat.mod_eq_of_lt h2]
      · rw [List.map_map]
        apply List.map_congr_left
        intro i hi
        simp only [Function.comp_apply]
        congr 1
        rw [Nat.mod_add_mod]
        omega

/-- Over any operation sequence, the commands dequeued so far plus what is
still queued are exactly what was queued initially plus the commands enqueued
successfully — nothing is lost, duplicated or reordered. -/
theorem ring_fifo_trace : ∀ (ops : List RingOp) (r : Ring), r.wfR →
    (runRing r ops).1.wfR ∧
    r.contents ++ (runRing r ops).2.1 = (runRing r ops).2.2 ++ (runRing r ops).1.contents := by
  intro ops
  induction ops with
  | nil =>
      intro r hw
      exact ⟨hw, by simp [runRing]⟩
  | cons op ops ih =>
      intro r hw
      cases op with
      | enq c =>
          rcases hb : (r.enqueue c).1 with _ | _
          · have hid := ring_enqueue_fail_id r c hb
            have hrest := ih r hw
            simp only [runRing, hb, hid]
            simpa using hrest
          · have hok := ring_enqueue_ok r c hw hb
            have hrest := ih (r.enqueue c).2 hok.1
            simp only [runRing, hb]
            refine ⟨hrest.1, ?_⟩
            simp only [if_true, List.singleton_append]
            calc r.contents ++ (c :: (runRing (r.enqueue c).2 ops).2.1)
                = (r.contents ++ [c]) ++ (runRing (r.enqueue c).2 ops).2.1 := by simp
              _ = (r.enqueue c).2.contents ++ (runRing (r.enqueue c).2 ops).2.1 := by
                    rw [hok.2]
              _ = (runRing (r.enqueue c).2 ops).2.2 ++ (runRing (r.enqueue c).2 ops).1.contents :=
                    hrest.2
      | deq =>
          rcases hd : (r.dequeue).1 with _ | c
          · have hid := ring_dequeue_fail_id r hd
            have hrest := ih r hw
            simp only [runRing, hd, hid]
            simpa using hrest
          · have hok := ring_dequeue_ok r c hw hd
            have hrest := ih (r.dequeue).2 hok.1
            simp only [runRing, hd]
            refine ⟨hrest.1, ?_⟩
            simp only [List.singleton_append]
            rw [hok.2]
            simp only [List.cons_append]
            rw [hrest.2]

/-- C6.  The SPSC ring buffer refines a bounded FIFO queue of effective
capacity `RING_BUFFER_SIZE - 1` under the abstraction `Ring.contents`
(the slots from `tail` up to `head`): enqueue fails exactly when `N - 1`
commands are queued and otherwise appends; dequeue fails exactly when the
queue is empty and otherwise removes and returns the oldest command; failed
operations leave the state unchanged; and over any sequence of interleaved
calls the initial contents plus the successfully enqueued commands equal the
successfully dequeued commands plus the final contents, in order — no
command lost, duplicated or reordered. -/
theorem c6_ring_refines_bounded_fifo :
    (∀ (r : Ring) (c : Command), r.wfR →
       ((r.enqueue c).1 = false ↔ r.contents.length = RING_BUFFER_SIZE - 1) ∧
       ((r.enqueue c).1 = false → (r.enqueue c).2 = r) ∧
       ((r.enqueue c).1 = true →
          (r.enqueue c).2.wfR ∧ (r.enqueue c).2.contents = r.contents ++ [c]))
    ∧ (∀ (r : Ring), r.wfR →
       ((r.dequeue).1 = none ↔ r.contents = []) ∧
       ((r.dequeue).1 = none → (r.dequeue).2 = r) ∧
       (∀ c, (r.dequeue).1 = some c →
          (r.dequeue).2.wfR ∧ r.contents = c :: (r.dequeue).2.contents))
    ∧ (∀ (ops : List RingOp) (r : Ring), r.wfR →
       (runRing r ops).1.wfR ∧
       r.contents ++ (runRing r ops).2.1 = (runRing r ops).2.2 ++ (runRing r ops).1.contents) := by
  refine ⟨?_, ?_, ring_fifo_trace⟩
  · intro r c hw
    refine ⟨?_, ring_enqueue_fail_id r c, ring_enqueue_ok r c hw⟩
    rw [Ring.contents_length]
    exact ring_enqueue_false_iff r c hw
  · intro r hw
    exact ⟨ring_dequeue_none_iff r hw, ring_dequeue_fail_id r,
           fun c => ring_dequeue_ok r c hw⟩

/-- Witness for `c6_ring_refines_bounded_fifo`: the freshly constructed ring
(indices 0/0) is well-formed, and the theorem applies to it both for a single
enqueue and for a two-operation trace. -/
theorem c6_ring_refines_bounded_fifo_witness :
    (((Ring.initR.enqueue defaultCmd).1 = false ↔
        Ring.initR.contents.length = RING_BUFFER_SIZE - 1) ∧
     ((Ring.initR.enqueue defaultCmd).1 = false →
        (Ring.initR.enqueue defaultCmd).2 = Ring.initR) ∧
     ((Ring.initR.enqueue defaultCmd).1 = true →
        (Ring.initR.enqueue defaultCmd).2.wfR ∧
        (Ring.initR.enqueue defaultCmd).2.contents = Ring.initR.contents ++ [defaultCmd]))
    ∧ ((runRing Ring.initR [RingOp.enq defaultCmd, RingOp.deq]).1.wfR ∧
       Ring.initR.contents ++ (runRing Ring.initR [RingOp.enq defaultCmd, RingOp.deq]).2.1
         = (runRing Ring.initR [RingOp.enq defaultCmd, RingOp.deq]).2.2
           ++ (runRing Ring.initR [RingOp.enq defaultCmd, RingOp.deq]).1.contents) :=
  ⟨c6_ring_refines_bounded_fifo.1 Ring.initR defaultCmd
     ⟨by norm_num [RING_BUFFER_SIZE, Ring.initR], by norm_num [RING_BUFFER_SIZE, Ring.initR]⟩,
   c6_ring_refines_bounded_fifo.2.2 [RingOp.enq defaultCmd, RingOp.deq] Ring.initR
     ⟨by norm_num [RING_BUFFER_SIZE, Ring.initR], by norm_num [RING_BUFFER_SIZE, Ring.initR]⟩⟩


/-! ## The id map is never touched at indices ≥ MAX_ORDERS -/

theorem matchAsksLoop_map_hi (a : Nat) (price : Int) (j : Nat) (hj : MAX_ORDERS ≤ j) :
    ∀ (fuel : Nat) (cur : Option Nat) (st : MEState),
    (matchAsksLoop a price fuel cur st).order_map j = st.order_map j := by
  intro fuel
  induction fuel with
  | zero => intro cur st; cases cur <;> simp [matchAsksLoop]
  | succ f ih =>
      intro cur st
      cases cur with
      | none => simp [matchAsksLoop]
      | some s =>
          rw [matchAsksLoop]
          by_cases h0 : (st.pool.slots a).quantity = 0
          · simp [h0]
          · rw [if_neg h0]
            rw [ih]
            simp only [askStep]
            split
            · simp only [ite_apply, apply_ite MEState.order_map]
              split
              · rename_i hid
                exact mapSet_other _ _ _ j (by omega)
              · rfl
            · rfl

theorem matchBidsLoop_map_hi (a : Nat) (price : Int) (j : Nat) (hj : MAX_ORDERS ≤ j) :
    ∀ (fuel : Nat) (cur : Option Nat) (st : MEState),
    (matchBidsLoop a price fuel cur st).order_map j = st.order_map j := by
  intro fuel
  induction fuel with
  | zero => intro cur st; cases cur <;> simp [matchBidsLoop]
  | succ f ih =>
      intro cur st
      cases cur with
      | none => simp [matchBidsLoop]
      | some s =>
          rw [matchBidsLoop]
          by_cases h0 : (st.pool.slots a).quantity = 0
          · simp [h0]
          · rw [if_neg h0]
            rw [ih]
            simp only [bidStep]
            split
            · simp only [ite_apply, apply_ite MEState.order_map]
              split
              · rename_i hid
                exact mapSet_other _ _ _ j (by omega)
              · rfl
            · rfl

theorem matchAsksWalk_map_hi (a : Nat) (j : Nat) (hj : MAX_ORDERS ≤ j) :
    ∀ (fuel : Nat) (p : Int) (st : MEState),
    (matchAsksWalk a fuel p st).order_map j = st.order_map j := by
  intro fuel
  induction fuel with
  | zero => intro p st; rfl
  | succ f ih =>
      intro p st
      rw [matchAsksWalk]
      by_cases hc : p ≤ (st.pool.slots a).price ∧ p ≠ -1
      · rw [if_pos hc]
        rcases hgl : st.book.getPriceLevel p Side.SELL with _ | lv
        · exact ih _ _
        · by_cases hh : lv.head = none
          · simp only [hh, if_true]
            exact ih _ _
          · simp only [hh, if_false]
            split
            · exact matchAsksLoop_map_hi a p j hj chainFuel lv.head st
            · rw [ih]
              exact matchAsksLoop_map_hi a p j hj chainFuel lv.head st
      · rw [if_neg hc]

theorem matchBidsWalk_map_hi (a : Nat) (j : Nat) (hj : MAX_ORDERS ≤ j) :
    ∀ (fuel : Nat) (p : Int) (st : MEState),
    (matchBidsWalk a fuel p st).order_map j = st.order_map j := by
  intro fuel
  induction fuel with
  | zero => intro p st; rfl
  | succ f ih =>
      intro p st
      rw [matchBidsWalk]
      by_cases hc : (st.pool.slots a).price ≤ p ∧ p ≠ -1
      · rw [if_pos hc]
        rcases hgl : st.book.getPriceLevel p Side.BUY with _ | lv
        · exact ih _ _
        · by_cases hh : lv.head = none
          · simp only [hh, if_true]
            exact ih _ _
          · simp only [hh, if_false]
            split
            · exact matchBidsLoop_map_hi a p j hj chainFuel lv.head st
            · rw [ih]
              exact matchBidsLoop_map_hi a p j hj chainFuel lv.head st
      · rw [if_neg hc]

/-- The tail of `handle_new_order`'s fully-matched branch never touches map
entries at indices ≥ `MAX_ORDERS` (the clear is guarded). -/
theorem map_hi_tail (st4 : MEState) (s j : Nat) (hj : MAX_ORDERS ≤ j) :
    (if (st4.pool.slots s).order_id < MAX_ORDERS
     then { st4 with order_map := mapSet st4.order_map (st4.pool.slots s).order_id none }
     else st4).order_map j = st4.order_map j := by
  split
  · rename_i hid
    exact mapSet_other _ _ _ j (by omega)
  · rfl

theorem handleNewOrder_map_hi (st : MEState) (cmd : Command) (s1 : MEState)
    (hrun : handleNewOrder st cmd = some s1) (j : Nat) (hj : MAX_ORDERS ≤ j) :
    s1.order_map j = st.order_map j := by
  unfold handleNewOrder at hrun
  rcases halloc : st.pool.allocate with _ | sp
  · rw [halloc] at hrun
    simp only [Option.some.injEq] at hrun
    subst hrun
    rfl
  · obtain ⟨s, pool1⟩ := sp
    rw [halloc] at hrun
    obtain ⟨ty, oid, sd, ot, pr, q, ts⟩ := cmd
    simp only [MEState.writeS, writeSlot_same] at hrun
    by_cases hid : oid < MAX_ORDERS
    · simp only [if_pos hid] at hrun
      cases sd
      · simp only [matchAgainstAsks] at hrun
        split at hrun
        · rw [Option.map_eq_some'] at hrun
          obtain ⟨hb, hx, hF⟩ := hrun
          subst hF
          simp only [writeSlot_same]
          rw [matchAsksWalk_map_hi s j hj]
          exact mapSet_other _ _ _ j (by omega)
        · simp only [Option.some.injEq] at hrun
          subst hrun
          simp only [writeSlot_same]
          rw [map_hi_tail _ s j hj, matchAsksWalk_map_hi s j hj]
          exact mapSet_other _ _ _ j (by omega)
      · simp only [matchAgainstBids] at hrun
        split at hrun
        · rw [Option.map_eq_some'] at hrun
          obtain ⟨hb, hx, hF⟩ := hrun
          subst hF
          simp only [writeSlot_same]
          rw [matchBidsWalk_map_hi s j hj]
          exact mapSet_other _ _ _ j (by omega)
        · simp only [Option.some.injEq] at hrun
          subst hrun
          simp only [writeSlot_same]
          rw [map_hi_tail _ s j hj, matchBidsWalk_map_hi s j hj]
          exact mapSet_other _ _ _ j (by omega)
    · simp only [if_neg hid] at hrun
      cases sd
      · simp only [matchAgainstAsks] at hrun
        split at hrun
        · rw [Option.map_eq_some'] at hrun
          obtain ⟨hb, hx, hF⟩ := hrun
          subst hF
          simp only [writeSlot_same]
          rw [matchAsksWalk_map_hi s j hj]
        · simp only [Option.some.injEq] at hrun
          subst hrun
          simp only [writeSlot_same]
          rw [map_hi_tail _ s j hj, matchAsksWalk_map_hi s j hj]
      · simp only [matchAgainstBids] at hrun
        split at hrun
        · rw [Option.map_eq_some'] at hrun
          obtain ⟨hb, hx, hF⟩ := hrun
          subst hF
          simp only [writeSlot_same]
          rw [matchBidsWalk_map_hi s j hj]
        · simp only [Option.some.injEq] at hrun
          subst hrun
          simp only [writeSlot_same]
          rw [map_hi_tail _ s j hj, matchBidsWalk_map_hi s j hj]

theorem handleNewOrder_rests_out_of_range_id (st : MEState) (cmd : Command) (s : Nat)
    (hfree : st.pool.free_head = some s) (hhi : MAX_ORDERS ≤ cmd.order_id)
    (hsd : cmd.side = .BUY) (hq : 0 < cmd.quantity)
    (hba : st.book.best_ask_price = -1)
    (hlo : PRICE_MIN ≤ cmd.price) (hhp : cmd.price ≤ PRICE_MAX)
    (hlv : (st.book.bidLevels cmd.price).head = none) :
    ∃ s1, handleNewOrder st cmd = some s1 ∧
      (s1.book.bidLevels cmd.price).head = some s ∧
      (s1.book.bidLevels cmd.price).tail = some s ∧
      (s1.pool.slots s).quantity = cmd.quantity ∧
      (s1.pool.slots s).order_id = cmd.order_id ∧
      s1.order_map cmd.order_id = st.order_map cmd.order_id := by
  have halloc : st.pool.allocate =
      some (s, { slots := writeSlot st.pool.slots s
                   { st.pool.slots s with next := none, prev := none },
                 free_head := (st.pool.slots s).next,
                 allocated_count := st.pool.allocated_count + 1 }) := by
    simp [Pool.allocate, hfree]
  obtain ⟨ty, oid, sd, ot, pr, q, ts⟩ := cmd
  simp only at hsd hq hhi hlo hhp hlv
  subst hsd
  unfold handleNewOrder
  rw [halloc]
  simp only [MEState.writeS, writeSlot_same, if_neg (by omega : ¬oid < MAX_ORDERS)]
  simp only [matchAgainstAsks, hba, writeSlot_same]
  rw [matchAsksWalk_neg1]
  simp only [writeSlot_same, hq, if_pos]
  simp only [Book.addOrder, writeSlot_same,
    if_neg (by simp only [PRICE_MIN, PRICE_MAX] at hlo hhp ⊢; omega :
      ¬(pr < PRICE_MIN ∨ PRICE_MAX < pr))]
  simp only [levelAddOrder, hlv, writeSlot_same]
  refine ⟨_, rfl, ?_, ?_, ?_, ?_, ?_⟩ <;>
    simp [writeLevel, writeSlot, mapSet]

theorem handleCancelOrder_hi_id (st : MEState) (order_id : Nat)
    (hhi : MAX_ORDERS ≤ order_id) : handleCancelOrder st order_id = some st := by
  simp [handleCancelOrder, hhi]

theorem handleCancelOrder_none_id (st : MEState) (order_id : Nat)
    (hnone : st.order_map order_id = none) : handleCancelOrder st order_id = some st := by
  unfold handleCancelOrder
  by_cases hhi : MAX_ORDERS ≤ order_id
  · simp [hhi]
  · simp [hhi, hnone]

/-- C10.  (1) `handle_new_order` never writes the id map at any index ≥
MAX_ORDERS, whatever the command: every map write in the engine is guarded by
`order_id < order_map_.size()`.  (2) A NEW whose `order_id ≥ MAX_ORDERS` is
still admitted: a slot is allocated, the matching walk runs, and the residual
rests in the book (shown here for a BUY with no ask liquidity and an in-range
price: the whole quantity rests at `cmd.price` in the allocated slot), while
the map entry at `cmd.order_id` is untouched.  (3) A CANCEL with
`order_id ≥ MAX_ORDERS` returns without modifying anything, so such an order
can never be cancelled.  (4) A CANCEL whose map entry is null is likewise a
no-op.  In particular no id-map access is ever out of bounds. -/
theorem c10_out_of_range_order_ids :
    (∀ (st : MEState) (cmd : Command) (s1 : MEState),
       handleNewOrder st cmd = some s1 →
       ∀ j, MAX_ORDERS ≤ j → s1.order_map j = st.order_map j)
    ∧ (∀ (st : MEState) (cmd : Command) (s : Nat),
       st.pool.free_head = some s → MAX_ORDERS ≤ cmd.order_id →
       cmd.side = .BUY → 0 < cmd.quantity → st.book.best_ask_price = -1 →
       PRICE_MIN ≤ cmd.price → cmd.price ≤ PRICE_MAX →
       (st.book.bidLevels cmd.price).head = none →
       ∃ s1, handleNewOrder st cmd = some s1 ∧
         (s1.book.bidLevels cmd.price).head = some s ∧
         (s1.book.bidLevels cmd.price).tail = some s ∧
         (s1.pool.slots s).quantity = cmd.quantity ∧
         (s1.pool.slots s).order_id = cmd.order_id ∧
         s1.order_map cmd.order_id = st.order_map cmd.order_id)
    ∧ (∀ (st : MEState) (order_id : Nat), MAX_ORDERS ≤ order_id →
        handleCancelOrder st order_id = some st)
    ∧ (∀ (st : MEState) (order_id : Nat), st.order_map order_id = none →
        handleCancelOrder st order_id = some st) :=
  ⟨fun st cmd s1 hrun j hj => handleNewOrder_map_hi st cmd s1 hrun j hj,
   fun st cmd s hfree hhi hsd hq hba hlo hhp hlv =>
     handleNewOrder_rests_out_of_range_id st cmd s hfree hhi hsd hq hba hlo hhp hlv,
   handleCancelOrder_hi_id, handleCancelOrder_none_id⟩

/-- Witness for `c10_out_of_range_order_ids` at concrete inputs. -/
theorem c10_out_of_range_order_ids_witness :
    (∃ s1, handleNewOrder MEState.initE (newCmd MAX_ORDERS .BUY .LIMIT 5000 5) = some s1 ∧
       s1.order_map (MAX_ORDERS + 1) = MEState.initE.order_map (MAX_ORDERS + 1))
    ∧ (∃ s1, handleNewOrder MEState.initE (newCmd MAX_ORDERS .BUY .LIMIT 5000 5) = some s1 ∧
        (s1.book.bidLevels 5000).head = some 0 ∧
        (s1.book.bidLevels 5000).tail = some 0 ∧
        (s1.pool.slots 0).quantity = 5 ∧
        (s1.pool.slots 0).order_id = MAX_ORDERS ∧
        s1.order_map MAX_ORDERS = MEState.initE.order_map MAX_ORDERS)
    ∧ handleCancelOrder MEState.initE MAX_ORDERS = some MEState.initE
    ∧ handleCancelOrder MEState.initE 5 = some MEState.initE := by
  refine ⟨⟨_, rfl, ?_⟩, ?_, ?_, ?_⟩
  · exact c10_out_of_range_order_ids.1 MEState.initE (newCmd MAX_ORDERS .BUY .LIMIT 5000 5) _
      rfl (MAX_ORDERS + 1) (Nat.le_succ _)
  · exact c10_out_of_range_order_ids.2.1 MEState.initE (newCmd MAX_ORDERS .BUY .LIMIT 5000 5) 0
      rfl Nat.le.refl rfl (by decide) rfl (by decide) (by decide) rfl
  · exact c10_out_of_range_order_ids.2.2.1 MEState.initE MAX_ORDERS Nat.le.refl
  · exact c10_out_of_range_order_ids.2.2.2 MEState.initE 5 rfl


/-! ## IOC orders (enhanced engine) -/

theorem ematchAsksWalk_empty (a : Nat) (st : EMState)
    (hemp : ∀ p : Int, PRICE_MIN ≤ p → p ≤ (st.pool.slots a).price →
      (st.book.askLevels p).head = none) :
    ∀ (fuel : Nat) (p : Int), ematchAsksWalk a fuel p st = st := by
  intro fuel
  induction fuel with
  | zero => intro p; rfl
  | succ f ih =>
      intro p
      rw [ematchAsksWalk]
      by_cases hc : p ≤ (st.pool.slots a).price ∧ p ≠ -1
      · rw [if_pos hc]
        rcases hgl : st.book.getPriceLevel p Side.SELL with _ | lv
        · exact ih _
        · have hp : PRICE_MIN ≤ p ∧ p ≤ PRICE_MAX := by
            by_contra hcon
            simp only [Book.getPriceLevel] at hgl
            rw [if_pos (by omega)] at hgl
            exact Option.noConfusion hgl
          have hlv : lv = st.book.askLevels p := by
            simp only [Book.getPriceLevel] at hgl
            rw [if_neg (by omega)] at hgl
            simpa using hgl.symm
          have hh : lv.head = none := by
            rw [hlv]
            exact hemp p hp.1 hc.1
          simp only [hh, if_true]
          exact ih _
      · rw [if_neg hc]

theorem free_slots_same (pl : Pool) (a : Nat) :
    (pl.free a).slots a = { pl.slots a with next := pl.free_head } := by
  simp [Pool.free, writeSlot_same]

theorem free_slots_other (pl : Pool) (a j : Nat) (hj : j ≠ a) :
    (pl.free a).slots j = pl.slots j := by
  simp [Pool.free, writeSlot_other _ _ _ _ hj]

theorem free_free_head_eq (pl : Pool) (a : Nat) : (pl.free a).free_head = some a := rfl

theorem free_allocated_eq (pl : Pool) (a : Nat) :
    (pl.free a).allocated_count = pl.allocated_count - 1 := rfl

/-- After a successful allocation, `handle_new_order` is the release step
followed by the finish step on the match result. -/
theorem ehandleNewOrder_eq (st : EMState) (cmd : Command) (s : Nat) (pool1 : Pool)
    (halloc : st.pool.allocate = some (s, pool1)) :
    ehandleNewOrder st cmd =
      (ehandleNewRelease s (ematchOrder s (ehandleNewInit st cmd s pool1)).1
          (ematchOrder s (ehandleNewInit st cmd s pool1)).2).map
        (ehandleNewFinish s (ematchOrder s (ehandleNewInit st cmd s pool1)).2) := by
  unfold ehandleNewOrder
  rw [halloc]

/-- The finish step is a no-op on the pool, id map, book and trade stream of
any order that is not in the fully-filled state. -/
theorem ehandleNewFinish_frame (s : Nat) (r : MatchResult) (st7 : EMState)
    (hcond : ¬((st7.pool.slots s).quantity = 0 ∧ (st7.pool.slots s).status ≠ .CANCELLED ∧
      (st7.pool.slots s).status ≠ .REJECTED)) :
    (ehandleNewFinish s r st7).pool = st7.pool ∧
    (ehandleNewFinish s r st7).order_map = st7.order_map ∧
    (ehandleNewFinish s r st7).book = st7.book ∧
    (ehandleNewFinish s r st7).trades = st7.trades := by
  unfold ehandleNewFinish
  rw [if_neg hcond]
  split <;> exact ⟨rfl, rfl, rfl, rfl⟩

/-- IOC release with a positive residual: cancel the slot, free it, and clear
the id-map entry read from the freed slot. -/
theorem ehandleNewRelease_ioc_spec (s : Nat) (stW : EMState) (r : MatchResult)
    (htype : (stW.pool.slots s).order_type = .IOC)
    (hq : 0 < (stW.pool.slots s).quantity) :
    ∃ s2, ehandleNewRelease s stW r = some s2 ∧
      (s2.pool.slots s).status = .CANCELLED ∧
      (s2.pool.slots s).order_id = (stW.pool.slots s).order_id ∧
      s2.pool.free_head = some s ∧
      s2.order_map = (if (stW.pool.slots s).order_id < MAX_ORDERS
                      then mapSet stW.order_map (stW.pool.slots s).order_id none
                      else stW.order_map) ∧
      s2.book = stW.book ∧ s2.trades = stW.trades := by
  simp only [ehandleNewRelease, htype]
  rw [if_pos hq]
  simp only [EMState.writeS, Pool.free, writeSlot_same]
  by_cases hlt : (stW.pool.slots s).order_id < MAX_ORDERS
  · rw [if_pos hlt, if_pos hlt]
    refine ⟨_, rfl, ?_, ?_, ?_, ?_, ?_, ?_⟩ <;> simp [writeSlot_same]
  · rw [if_neg hlt, if_neg hlt]
    refine ⟨_, rfl, ?_, ?_, ?_, ?_, ?_, ?_⟩ <;> simp [writeSlot_same]

/-- FOK release on a rejected match: free the slot and clear the id-map entry
read from the freed slot; every other field of the freed slot is untouched. -/
theorem ehandleNewRelease_fok_spec (s : Nat) (stW : EMState)
    (htype : (stW.pool.slots s).order_type = .FOK) :
    ∃ s2, ehandleNewRelease s stW .REJECTED = some s2 ∧
      s2.pool.slots s = { stW.pool.slots s with next := stW.pool.free_head } ∧
      s2.pool.free_head = some s ∧
      s2.order_map = (if (stW.pool.slots s).order_id < MAX_ORDERS
                      then mapSet stW.order_map (stW.pool.slots s).order_id none
                      else stW.order_map) ∧
      s2.book = stW.book ∧ s2.trades = stW.trades := by
  simp only [ehandleNewRelease, htype, if_true]
  simp only [Pool.free, writeSlot_same]
  by_cases hlt : (stW.pool.slots s).order_id < MAX_ORDERS
  · rw [if_pos hlt, if_pos hlt]
    refine ⟨_, rfl, ?_, ?_, ?_, ?_, ?_⟩ <;> simp [writeSlot_same, htype]
  · rw [if_neg hlt, if_neg hlt]
    refine ⟨_, rfl, ?_, ?_, ?_, ?_, ?_⟩ <;> simp [writeSlot_same, htype]

theorem ehandleNewOrder_ioc_residual (st : EMState) (cmd : Command) (s : Nat) (pool1 : Pool)
    (halloc : st.pool.allocate = some (s, pool1))
    (stW : EMState) (r : MatchResult)
    (hmatch : ematchOrder s (ehandleNewInit st cmd s pool1) = (stW, r))
    (hq : 0 < (stW.pool.slots s).quantity)
    (htype : (stW.pool.slots s).order_type = .IOC)
    (hid : (stW.pool.slots s).order_id = cmd.order_id) :
    ∃ s1, ehandleNewOrder st cmd = some s1 ∧
      (s1.pool.slots s).status = .CANCELLED ∧
      s1.pool.free_head = some s ∧
      (cmd.order_id < MAX_ORDERS → s1.order_map cmd.order_id = none) ∧
      s1.book = stW.book ∧ s1.trades = stW.trades := by
  obtain ⟨s2, hrel, hst, hoid, hfh, hmap, hbk, htr⟩ :=
    ehandleNewRelease_ioc_spec s stW r htype hq
  have hfin := ehandleNewFinish_frame s r s2 (by simp [hst])
  refine ⟨ehandleNewFinish s r s2, ?_, ?_, ?_, ?_, ?_, ?_⟩
  · rw [ehandleNewOrder_eq st cmd s pool1 halloc]
    simp only [hmatch]
    rw [hrel, Option.map_some']
  · rw [hfin.1, hst]
  · rw [hfin.1, hfh]
  · intro hx
    rw [hfin.2.1, hmap, if_pos (hid ▸ hx), hid]
    exact mapSet_same _ _ _
  · rw [hfin.2.2.1, hbk]
  · rw [hfin.2.2.2, htr]

theorem ehandleNewInit_book (st : EMState) (cmd : Command) (s : Nat) (pool1 : Pool) :
    (ehandleNewInit st cmd s pool1).book = st.book := by
  simp only [ehandleNewInit]
  split <;> rfl

theorem ehandleNewInit_trades (st : EMState) (cmd : Command) (s : Nat) (pool1 : Pool) :
    (ehandleNewInit st cmd s pool1).trades = st.trades := by
  simp only [ehandleNewInit]
  split <;> rfl

theorem ehandleNewInit_slot (st : EMState) (cmd : Command) (s : Nat) (pool1 : Pool) :
    (ehandleNewInit st cmd s pool1).pool.slots s = { pool1.slots s with
      order_id := cmd.order_id, side := cmd.side, order_type := cmd.order_type,
      price := cmd.price, quantity := cmd.quantity, original_quantity := cmd.quantity,
      status := .PENDING, timestamp := cmd.producer_timestamp } := by
  simp only [ehandleNewInit, EMState.writeS]
  split <;> simp [writeSlot_same]

theorem ehandleNewOrder_ioc_no_liquidity (st : EMState) (cmd : Command) (s : Nat) (pool1 : Pool)
    (halloc : st.pool.allocate = some (s, pool1))
    (hioc : cmd.order_type = .IOC) (hsd : cmd.side = .BUY) (hq : 0 < cmd.quantity)
    (hemp : ∀ p : Int, PRICE_MIN ≤ p → p ≤ cmd.price → (st.book.askLevels p).head = none) :
    ∃ s1, ehandleNewOrder st cmd = some s1 ∧
      (s1.pool.slots s).status = .CANCELLED ∧
      s1.pool.free_head = some s ∧
      (cmd.order_id < MAX_ORDERS → s1.order_map cmd.order_id = none) ∧
      s1.book = st.book ∧ s1.trades = st.trades := by
  have hslot := ehandleNewInit_slot st cmd s pool1
  have hbook := ehandleNewInit_book st cmd s pool1
  have htr := ehandleNewInit_trades st cmd s pool1
  have hwalk : ematchAgainstAsks s (ehandleNewInit st cmd s pool1)
      = ehandleNewInit st cmd s pool1 := by
    simp only [ematchAgainstAsks]
    exact ematchAsksWalk_empty s _ (by
      intro p h1 h2
      rw [hbook]
      exact hemp p h1 (by rw [hslot] at h2; simpa using h2)) _ _
  have hmatch : ematchOrder s (ehandleNewInit st cmd s pool1)
      = (ehandleNewInit st cmd s pool1, .NO_MATCH) := by
    simp only [ematchOrder, hslot, hioc, matchIocOrder, matchLimitOrder, hsd, hwalk]
    rw [if_neg (by omega), if_neg (by omega)]
  obtain ⟨s1, hrun, hst, hfh, hmap, hbk, htrs⟩ :=
    ehandleNewOrder_ioc_residual st cmd s pool1 halloc _ _ hmatch
      (by rw [hslot]; simpa using hq)
      (by rw [hslot]; simpa using hioc)
      (by rw [hslot])
  exact ⟨s1, hrun, hst, hfh, hmap, by rw [hbk, hbook], by rw [htrs, htr]⟩

/-- C7.  IOC orders never rest.  (1) In general: whenever the matching walk
leaves an IOC order with positive remaining quantity, `handle_new_order`
sets the order's status to CANCELLED, releases the slot back to the pool
(`free_head` points at it), clears the id-map entry, and adds nothing beyond
what the walk itself did (the resulting book and trade stream are exactly the
walk's).  (2) If there is no crossing liquidity at any price within the IOC
order's limit, the walk trades nothing, so zero trades are emitted and the
book is left exactly in its pre-command state, with the order immediately
CANCELLED and its slot and map entry released. -/
theorem c7_ioc_never_rests :
    (∀ (st : EMState) (cmd : Command) (s : Nat) (pool1 : Pool),
       st.pool.allocate = some (s, pool1) →
       ∀ (stW : EMState) (r : MatchResult),
       ematchOrder s (ehandleNewInit st cmd s pool1) = (stW, r) →
       0 < (stW.pool.slots s).quantity →
       (stW.pool.slots s).order_type = .IOC →
       (stW.pool.slots s).order_id = cmd.order_id →
       ∃ s1, ehandleNewOrder st cmd = some s1 ∧
         (s1.pool.slots s).status = .CANCELLED ∧
         s1.pool.free_head = some s ∧
         (cmd.order_id < MAX_ORDERS → s1.order_map cmd.order_id = none) ∧
         s1.book = stW.book ∧ s1.trades = stW.trades)
    ∧ (∀ (st : EMState) (cmd : Command) (s : Nat) (pool1 : Pool),
       st.pool.allocate = some (s, pool1) →
       cmd.order_type = .IOC → cmd.side = .BUY → 0 < cmd.quantity →
       (∀ p : Int, PRICE_MIN ≤ p → p ≤ cmd.price → (st.book.askLevels p).head = none) →
       ∃ s1, ehandleNewOrder st cmd = some s1 ∧
         (s1.pool.slots s).status = .CANCELLED ∧
         s1.pool.free_head = some s ∧
         (cmd.order_id < MAX_ORDERS → s1.order_map cmd.order_id = none) ∧
         s1.book = st.book ∧ s1.trades = st.trades) :=
  ⟨fun st cmd s pool1 halloc stW r hmatch hq htype hid =>
     ehandleNewOrder_ioc_residual st cmd s pool1 halloc stW r hmatch hq htype hid,
   fun st cmd s pool1 halloc hioc hsd hq hemp =>
     ehandleNewOrder_ioc_no_liquidity st cmd s pool1 halloc hioc hsd hq hemp⟩

/-- Witness for `c7_ioc_never_rests` at concrete inputs. -/
theorem c7_ioc_never_rests_witness :
    (∃ s1, ehandleNewOrder EMState.initE (newCmd 7 .BUY .IOC 5000 50) = some s1 ∧
       (s1.pool.slots 0).status = .CANCELLED ∧ s1.pool.free_head = some 0 ∧
       s1.order_map 7 = none)
    ∧ (∃ s1, ehandleNewOrder EMState.initE (newCmd 8 .BUY .IOC 6000 25) = some s1 ∧
       (s1.pool.slots 0).status = .CANCELLED ∧ s1.pool.free_head = some 0 ∧
       s1.order_map 8 = none ∧ s1.book = EMState.initE.book ∧
       s1.trades = EMState.initE.trades) := by
  constructor
  · obtain ⟨s1, h1, h2, h3, h4, h5, h6⟩ :=
      c7_ioc_never_rests.1 EMState.initE (newCmd 7 .BUY .IOC 5000 50) 0 _ rfl _ _ rfl
        (by decide) (by decide) (by decide)
    exact ⟨s1, h1, h2, h3, h4 (by decide)⟩
  · obtain ⟨s1, h1, h2, h3, h4, h5, h6⟩ :=
      c7_ioc_never_rests.2 EMState.initE (newCmd 8 .BUY .IOC 6000 25) 0 _ rfl rfl rfl
        (by decide) (fun p _ _ => rfl)
    exact ⟨s1, h1, h2, h3, h4 (by decide), h5, h6⟩

/-- `reject_order` only sets the slot's status (plus stats counters). -/
theorem rejectOrder_slot (st : EMState) (a : Nat) :
    (rejectOrder st a).pool.slots a = { st.pool.slots a with status := .REJECTED } := by
  simp [rejectOrder, EMState.writeS, writeSlot_same]

theorem rejectOrder_book (st : EMState) (a : Nat) :
    (rejectOrder st a).book = st.book := rfl

theorem rejectOrder_trades (st : EMState) (a : Nat) :
    (rejectOrder st a).trades = st.trades := rfl

/-- A FOK order that cannot be filled completely is rejected without trading:
the slot is freed, the id map is cleared at the command's id (read from the
slot after the free), and book and trade stream are untouched. -/
theorem ehandleNewOrder_fok_infeasible (st : EMState) (cmd : Command) (s : Nat) (pool1 : Pool)
    (halloc : st.pool.allocate = some (s, pool1))
    (hfok : cmd.order_type = .FOK)
    (hcant : canFillCompletely (ehandleNewInit st cmd s pool1) s = false) :
    ∃ s1, ehandleNewOrder st cmd = some s1 ∧
      (s1.pool.slots s).status = .REJECTED ∧
      (s1.pool.slots s).order_id = cmd.order_id ∧
      s1.pool.free_head = some s ∧
      (cmd.order_id < MAX_ORDERS → s1.order_map cmd.order_id = none) ∧
      s1.book = st.book ∧ s1.trades = st.trades := by
  have hslot := ehandleNewInit_slot st cmd s pool1
  have hbook := ehandleNewInit_book st cmd s pool1
  have htr := ehandleNewInit_trades st cmd s pool1
  have hmatch : ematchOrder s (ehandleNewInit st cmd s pool1)
      = (rejectOrder (ehandleNewInit st cmd s pool1) s, .REJECTED) := by
    simp only [ematchOrder, hslot, hfok, matchFokOrder, hcant]
    simp
  have hrs := rejectOrder_slot (ehandleNewInit st cmd s pool1) s
  have htype2 : ((rejectOrder (ehandleNewInit st cmd s pool1) s).pool.slots s).order_type
      = .FOK := by
    rw [hrs]
    simp [hslot, hfok]
  have hkey : ((rejectOrder (ehandleNewInit st cmd s pool1) s).pool.slots s).order_id
      = cmd.order_id := by
    rw [hrs]
    simp [hslot]
  obtain ⟨s2, hrel, hslots2, hfh, hmap, hbk, htr2⟩ :=
    ehandleNewRelease_fok_spec s _ htype2
  have hsstat : (s2.pool.slots s).status = .REJECTED := by
    rw [hslots2]
    simp [hrs]
  have hsid : (s2.pool.slots s).order_id = cmd.order_id := by
    rw [hslots2]
    simp [hrs, hslot]
  have hfin := ehandleNewFinish_frame s .REJECTED s2 (by simp [hsstat])
  refine ⟨ehandleNewFinish s .REJECTED s2, ?_, ?_, ?_, ?_, ?_, ?_, ?_⟩
  · rw [ehandleNewOrder_eq st cmd s pool1 halloc]
    simp only [hmatch]
    rw [hrel, Option.map_some']
  · rw [hfin.1, hsstat]
  · rw [hfin.1, hsid]
  · rw [hfin.1, hfh]
  · intro hx
    rw [hfin.2.1, hmap, if_pos (hkey ▸ hx), hkey]
    exact mapSet_same _ _ _
  · rw [hfin.2.2.1, hbk, rejectOrder_book, hbook]
  · rw [hfin.2.2.2, htr2, rejectOrder_trades, htr]

/-- C9: `OrderPool::free` only rewrites the freed slot's `next` link, the
pool's `free_head` and `allocated_count`; every other field of the freed slot
and every other slot are untouched.  Consequently the enhanced engine's
deferred id-map clears — which read `order->order_id` *after*
`order_pool_.free(order)` in both the FOK-reject and IOC-cancel release
paths — still see the original id and clear the correct entry. -/
theorem c9_free_frame_and_deferred_id_reads :
    (∀ (pl : Pool) (a : Nat),
       (pl.free a).slots a = { pl.slots a with next := pl.free_head } ∧
       (∀ j, j ≠ a → (pl.free a).slots j = pl.slots j) ∧
       (pl.free a).free_head = some a ∧
       (pl.free a).allocated_count = pl.allocated_count - 1)
    ∧ (∀ (st : EMState) (cmd : Command) (s : Nat) (pool1 : Pool),
       st.pool.allocate = some (s, pool1) →
       cmd.order_type = .FOK →
       canFillCompletely (ehandleNewInit st cmd s pool1) s = false →
       ∃ s1, ehandleNewOrder st cmd = some s1 ∧
         (s1.pool.slots s).status = .REJECTED ∧
         (s1.pool.slots s).order_id = cmd.order_id ∧
         s1.pool.free_head = some s ∧
         (cmd.order_id < MAX_ORDERS → s1.order_map cmd.order_id = none) ∧
         s1.book = st.book ∧ s1.trades = st.trades)
    ∧ (∀ (st : EMState) (cmd : Command) (s : Nat) (pool1 : Pool),
       st.pool.allocate = some (s, pool1) →
       ∀ (stW : EMState) (r : MatchResult),
       ematchOrder s (ehandleNewInit st cmd s pool1) = (stW, r) →
       0 < (stW.pool.slots s).quantity →
       (stW.pool.slots s).order_type = .IOC →
       (stW.pool.slots s).order_id = cmd.order_id →
       ∃ s1, ehandleNewOrder st cmd = some s1 ∧
         (s1.pool.slots s).status = .CANCELLED ∧
         s1.pool.free_head = some s ∧
         (cmd.order_id < MAX_ORDERS → s1.order_map cmd.order_id = none) ∧
         s1.book = stW.book ∧ s1.trades = stW.trades) :=
  ⟨fun pl a => ⟨free_slots_same pl a, fun j hj => free_slots_other pl a j hj, rfl, rfl⟩,
   fun st cmd s pool1 halloc hfok hcant =>
     ehandleNewOrder_fok_infeasible st cmd s pool1 halloc hfok hcant,
   fun st cmd s pool1 halloc stW r hmatch hq htype hid =>
     ehandleNewOrder_ioc_residual st cmd s pool1 halloc stW r hmatch hq htype hid⟩

/-- Witness for `c9_free_frame_and_deferred_id_reads` at concrete inputs. -/
theorem c9_free_frame_and_deferred_id_reads_witness :
    ((EMState.initE.pool.free 0).slots 0
        = { EMState.initE.pool.slots 0 with next := EMState.initE.pool.free_head } ∧
     (EMState.initE.pool.free 0).free_head = some 0)
    ∧ (∃ s1, ehandleNewOrder EMState.initE (newCmd 9 .BUY .FOK 5000 10) = some s1 ∧
       (s1.pool.slots 0).status = .REJECTED ∧
       (s1.pool.slots 0).order_id = 9 ∧
       s1.pool.free_head = some 0 ∧
       s1.order_map 9 = none ∧
       s1.book = EMState.initE.book ∧ s1.trades = EMState.initE.trades)
    ∧ (∃ s1, ehandleNewOrder EMState.initE (newCmd 12 .BUY .IOC 4000 20) = some s1 ∧
       (s1.pool.slots 0).status = .CANCELLED ∧ s1.pool.free_head = some 0 ∧
       s1.order_map 12 = none) := by
  refine ⟨⟨(c9_free_frame_and_deferred_id_reads.1 EMState.initE.pool 0).1,
           (c9_free_frame_and_deferred_id_reads.1 EMState.initE.pool 0).2.2.1⟩, ?_, ?_⟩
  · obtain ⟨s1, h1, h2, h3, h4, h5, h6, h7⟩ :=
      c9_free_frame_and_deferred_id_reads.2.1 EMState.initE (newCmd 9 .BUY .FOK 5000 10) 0 _
        rfl rfl (by decide)
    exact ⟨s1, h1, h2, h3, h4, h5 (by decide), h6, h7⟩
  · obtain ⟨s1, h1, h2, h3, h4, h5, h6⟩ :=
      c9_free_frame_and_deferred_id_reads.2.2 EMState.initE (newCmd 12 .BUY .IOC 4000 20) 0 _
        rfl _ _ rfl (by decide) (by decide) (by decide)
    exact ⟨s1, h1, h2, h3, h4 (by decide)⟩

theorem matchAsksLoop_none (a : Nat) (p : Int) (fuel : Nat) (st : MEState) :
    matchAsksLoop a p fuel none st = st := by
  cases fuel <;> rfl

theorem matchBidsLoop_none (a : Nat) (p : Int) (fuel : Nat) (st : MEState) :
    matchBidsLoop a p fuel none st = st := by
  cases fuel <;> rfl

theorem specFillLevel_rem_zero (i : Nat) (p : Int) (l : List (Nat × Nat)) :
    specFillLevel i 0 p l = ([], 0) := by
  cases l with
  | nil => rfl
  | cons x t => simp [specFillLevel]

theorem set_quantity_self (o : OrderRec) : { o with quantity := o.quantity } = o := rfl

theorem chainOKb_congr (h h' : Heap) (l : List Nat)
    (hsame : ∀ x ∈ l, (h' x).next = (h x).next) :
    ∀ cur, chainOKb h' cur l = chainOKb h cur l := by
  induction l with
  | nil => intro cur; cases cur <;> rfl
  | cons s t ih =>
      intro cur
      cases cur with
      | none => rfl
      | some c =>
          simp only [chainOKb]
          rw [hsame s (List.mem_cons_self s t),
            ih (fun x hx => hsame x (List.mem_cons_of_mem s hx)) (h s).next]

theorem chainPrevOK_congr (h h' : Heap) (l : List Nat)
    (hsame : ∀ x ∈ l, (h' x).prev = (h x).prev) :
    ∀ pr, chainPrevOK h' pr l = chainPrevOK h pr l := by
  induction l with
  | nil => intro pr; rfl
  | cons s t ih =>
      intro pr
      simp only [chainPrevOK]
      rw [hsame s (List.mem_cons_self s t),
        ih (fun x hx => hsame x (List.mem_cons_of_mem s hx)) (some s)]

/-- Field-level characterisation of one ask-side matching step: the emitted
trade, the aggressor update, preservation of the traversal-relevant fields of
all other slots, full preservation of slots away from the removal surgery,
preservation of other price levels, and the head-reset of the successor's
`prev` link when the resting order is removed. -/
theorem askStep_spec (a : Nat) (price : Int) (s : Nat) (st : MEState)
    (has : a ≠ s) (hsprev : (st.pool.slots s).prev = none)
    (hnexta : ∀ u, (st.pool.slots s).next = some u → u ≠ a) :
    (askStep a price s st).trades = st.trades
      ++ [⟨(st.pool.slots a).order_id, (st.pool.slots s).order_id, price,
           min (st.pool.slots a).quantity (st.pool.slots s).quantity⟩]
    ∧ (askStep a price s st).pool.slots a
      = { st.pool.slots a with quantity :=
            (st.pool.slots a).quantity - min (st.pool.slots a).quantity (st.pool.slots s).quantity }
    ∧ (∀ j, j ≠ a → j ≠ s →
        ((askStep a price s st).pool.slots j).next = (st.pool.slots j).next
        ∧ ((askStep a price s st).pool.slots j).order_id = (st.pool.slots j).order_id
        ∧ ((askStep a price s st).pool.slots j).quantity = (st.pool.slots j).quantity)
    ∧ (∀ j, j ≠ a → j ≠ s → (∀ u, (st.pool.slots s).next = some u → j ≠ u) →
        (askStep a price s st).pool.slots j = st.pool.slots j)
    ∧ (∀ p', p' ≠ price →
        (askStep a price s st).book.askLevels p' = st.book.askLevels p')
    ∧ (∀ u, (st.pool.slots s).next = some u → u ≠ s →
        ((askStep a price s st).pool.slots u).prev =
          (if (st.pool.slots s).quantity - min (st.pool.slots a).quantity (st.pool.slots s).quantity = 0
           then none else (st.pool.slots u).prev)) := by
  have has' : s ≠ a := Ne.symm has
  rcases hnext : (st.pool.slots s).next with _ | u
  · simp only [askStep, execTrade, MEState.writeS, levelRemoveOrder, Pool.free,
      writeSlot_same, writeSlot_other _ _ _ _ has, writeSlot_other _ _ _ _ has',
      hsprev, hnext]
    split
    · refine ⟨?_, ?_, fun j hj1 hj2 => ?_, fun j hj1 hj2 hj3 => ?_,
        fun p' hp => ?_, fun v hv hvs => ?_⟩
      · simp [apply_ite MEState.trades]
      · simp [apply_ite MEState.pool, writeSlot_same, writeSlot_other _ _ _ _ has,
          writeSlot_other _ _ _ _ has']
      · simp [apply_ite MEState.pool, writeSlot_same, writeSlot_other _ _ _ _ hj1,
          writeSlot_other _ _ _ _ hj2]
      · simp [apply_ite MEState.pool, writeSlot_same, writeSlot_other _ _ _ _ hj1,
          writeSlot_other _ _ _ _ hj2]
      · simp [apply_ite MEState.book, writeLevel, hp]
      · exact absurd hv (by simp)
    · refine ⟨?_, ?_, fun j hj1 hj2 => ?_, fun j hj1 hj2 hj3 => ?_,
        fun p' hp => ?_, fun v hv hvs => ?_⟩
      · simp
      · simp [writeSlot_same, writeSlot_other _ _ _ _ has, writeSlot_other _ _ _ _ has']
      · simp [writeSlot_same, writeSlot_other _ _ _ _ hj1, writeSlot_other _ _ _ _ hj2]
      · simp [writeSlot_same, writeSlot_other _ _ _ _ hj1, writeSlot_other _ _ _ _ hj2]
      · rfl
      · exact absurd hv (by simp)
  · have hua : u ≠ a := hnexta u hnext
    simp only [askStep, execTrade, MEState.writeS, levelRemoveOrder, Pool.free,
      writeSlot_same, writeSlot_other _ _ _ _ has, writeSlot_other _ _ _ _ has',
      hsprev, hnext]
    split
    · refine ⟨?_, ?_, fun j hj1 hj2 => ?_, fun j hj1 hj2 hj3 => ?_,
        fun p' hp => ?_, fun v hv hvs => ?_⟩
      · simp [apply_ite MEState.trades]
      · simp [apply_ite MEState.pool, writeSlot_same, writeSlot_other _ _ _ _ has,
          writeSlot_other _ _ _ _ has', writeSlot_other _ _ _ _ (Ne.symm hua)]
      · by_cases hju : j = u
        · subst hju
          simp [apply_ite MEState.pool, writeSlot_same, writeSlot_other _ _ _ _ hj1,
            writeSlot_other _ _ _ _ hj2]
        · simp [apply_ite MEState.pool, writeSlot_same, writeSlot_other _ _ _ _ hj1,
            writeSlot_other _ _ _ _ hj2, writeSlot_other _ _ _ _ hju]
      · have hju : j ≠ u := hj3 u rfl
        simp [apply_ite MEState.pool, writeSlot_same, writeSlot_other _ _ _ _ hj1,
          writeSlot_other _ _ _ _ hj2, writeSlot_other _ _ _ _ hju]
      · simp [apply_ite MEState.book, writeLevel, hp]
      · injection hv with hv2
        subst hv2
        simp [apply_ite MEState.pool, writeSlot_same, writeSlot_other _ _ _ _ hvs]
    · refine ⟨?_, ?_, fun j hj1 hj2 => ?_, fun j hj1 hj2 hj3 => ?_,
        fun p' hp => ?_, fun v hv hvs => ?_⟩
      · simp
      · simp [writeSlot_same, writeSlot_other _ _ _ _ has, writeSlot_other _ _ _ _ has']
      · simp [writeSlot_same, writeSlot_other _ _ _ _ hj1, writeSlot_other _ _ _ _ hj2]
      · simp [writeSlot_same, writeSlot_other _ _ _ _ hj1, writeSlot_other _ _ _ _ hj2]
      · rfl
      · injection hv with hv2
        subst hv2
        simp [writeSlot_same, writeSlot_other _ _ _ _ hvs, writeSlot_other _ _ _ _ hua]

/-- The inner ask-side loop refines FIFO filling of the level's chain: under
chain well-formedness, its trades are exactly `specFillLevel` of the recorded
`(order_id, quantity)` list, the aggressor retains the spec's remainder, and
slots and price levels away from the chain are untouched. -/
theorem matchAsksLoop_fifo (a : Nat) (price : Int) :
    ∀ (l : List Nat) (fuel : Nat) (cur : Option Nat) (st : MEState),
    l.length ≤ fuel →
    chainOKb st.pool.slots cur l = true →
    chainPrevOK st.pool.slots none l = true →
    a ∉ l → l.Nodup →
    (matchAsksLoop a price fuel cur st).trades
      = st.trades ++ (specFillLevel (st.pool.slots a).order_id (st.pool.slots a).quantity price
          (l.map fun x => ((st.pool.slots x).order_id, (st.pool.slots x).quantity))).1
    ∧ (matchAsksLoop a price fuel cur st).pool.slots a
      = { st.pool.slots a with quantity := (specFillLevel (st.pool.slots a).order_id
            (st.pool.slots a).quantity price
            (l.map fun x => ((st.pool.slots x).order_id, (st.pool.slots x).quantity))).2 }
    ∧ (∀ j, j ≠ a → j ∉ l →
        (matchAsksLoop a price fuel cur st).pool.slots j = st.pool.slots j)
    ∧ (∀ p', p' ≠ price →
        (matchAsksLoop a price fuel cur st).book.askLevels p' = st.book.askLevels p') := by
  intro l
  induction l with
  | nil =>
      intro fuel cur st hlen hchain hprev hna hnd
      cases cur with
      | none =>
          rw [matchAsksLoop_none]
          exact ⟨by simp [specFillLevel], by simp [specFillLevel],
            fun j _ _ => rfl, fun p' _ => rfl⟩
      | some c => exact absurd hchain (by simp [chainOKb])
  | cons s t ih =>
      intro fuel cur st hlen hchain hprev hna hnd
      cases cur with
      | none => exact absurd hchain (by simp [chainOKb])
      | some c =>
          obtain ⟨hcs, hrest⟩ : c = s ∧ chainOKb st.pool.slots ((st.pool.slots s).next) t = true := by
            simpa [chainOKb] using hchain
          obtain rfl : s = c := hcs.symm
          obtain ⟨hsprev, hprevt⟩ :
              (st.pool.slots s).prev = none ∧ chainPrevOK st.pool.slots (some s) t = true := by
            simpa [chainPrevOK] using hprev
          have has : a ≠ s := fun h => hna (h ▸ List.mem_cons_self s t)
          have hat : a ∉ t := fun h => hna (List.mem_cons_of_mem s h)
          have hsnt : s ∉ t := by simp at hnd; exact hnd.1
          have hndt : t.Nodup := by simp at hnd; exact hnd.2
          have hnexta : ∀ u, (st.pool.slots s).next = some u → u ≠ a := by
            intro u hu hua
            cases t with
            | nil => rw [hu] at hrest; exact absurd hrest (by simp [chainOKb])
            | cons w t' =>
                rw [hu] at hrest
                obtain ⟨h1, _⟩ : u = w ∧
                    chainOKb st.pool.slots ((st.pool.slots w).next) t' = true := by
                  simpa [chainOKb] using hrest
                exact hat (hua ▸ h1 ▸ List.mem_cons_self w t')
          have hnextj : ∀ j, j ∉ t → ∀ u, (st.pool.slots s).next = some u → j ≠ u := by
            intro j hj u hu hju
            cases t with
            | nil => rw [hu] at hrest; exact absurd hrest (by simp [chainOKb])
            | cons w t' =>
                rw [hu] at hrest
                obtain ⟨h1, _⟩ : u = w ∧
                    chainOKb st.pool.slots ((st.pool.slots w).next) t' = true := by
                  simpa [chainOKb] using hrest
                exact hj (hju ▸ h1 ▸ List.mem_cons_self w t')
          cases fuel with
          | zero => simp at hlen
          | succ f =>
              rw [matchAsksLoop]
              by_cases hq0 : (st.pool.slots a).quantity = 0
              · rw [if_pos hq0]
                refine ⟨?_, ?_, fun j _ _ => rfl, fun p' _ => rfl⟩
                · simp [hq0, specFillLevel]
                · simp only [List.map_cons, hq0, specFillLevel, if_pos]
                  exact (hq0 ▸ set_quantity_self (st.pool.slots a)).symm
              · rw [if_neg hq0]
                obtain ⟨hstr, hsta, hpres3, hpres4, hlev, hprevu⟩ :=
                  askStep_spec a price s st has hsprev hnexta
                have hlen' : t.length ≤ f := by simp at hlen; omega
                by_cases hrem : (st.pool.slots s).quantity ≤ (st.pool.slots a).quantity
                · -- the resting order is fully consumed and removed; recurse on the tail
                  have hchain' : chainOKb (askStep a price s st).pool.slots
                      ((st.pool.slots s).next) t = true := by
                    rw [chainOKb_congr st.pool.slots (askStep a price s st).pool.slots t
                      (fun x hx => (hpres3 x (fun h => hat (h ▸ hx)) (fun h => hsnt (h ▸ hx))).1)]
                    exact hrest
                  have hprev' : chainPrevOK (askStep a price s st).pool.slots none t = true := by
                    cases t with
                    | nil => rfl
                    | cons w t' =>
                        have hnu : (st.pool.slots s).next = some w := by
                          rcases hn : (st.pool.slots s).next with _ | v
                          · rw [hn] at hrest; exact absurd hrest (by simp [chainOKb])
                          · rw [hn] at hrest
                            obtain ⟨h1, _⟩ : v = w ∧
                                chainOKb st.pool.slots ((st.pool.slots w).next) t' = true := by
                              simpa [chainOKb] using hrest
                            rw [h1]
                        obtain ⟨-, hprevt'⟩ :
                            (st.pool.slots w).prev = some s ∧
                            chainPrevOK st.pool.slots (some w) t' = true := by
                          simpa [chainPrevOK] using hprevt
                        have hws : w ≠ s := fun h => hsnt (h ▸ List.mem_cons_self w t')
                        have hwprev : ((askStep a price s st).pool.slots w).prev = none := by
                          rw [hprevu w hnu hws]
                          rw [if_pos (by omega)]
                        simp only [chainPrevOK, Bool.and_eq_true, decide_eq_true_eq]
                        refine ⟨hwprev, ?_⟩
                        rw [chainPrevOK_congr st.pool.slots (askStep a price s st).pool.slots t'
                          (fun x hx => by
                            have hxa : x ≠ a := fun h => hat (h ▸ List.mem_cons_of_mem w hx)
                            have hxs : x ≠ s := fun h => hsnt (h ▸ List.mem_cons_of_mem w hx)
                            have hxw : x ≠ w := fun h => ((List.nodup_cons.mp hndt).1) (h ▸ hx)
                            rw [hpres4 x hxa hxs (fun u hu => by
                              rw [hnu] at hu; injection hu with h2; exact h2 ▸ hxw)])
                          (some w)]
                        exact hprevt'
                  obtain ⟨ihtr, ihsa, ihp3, ihp4⟩ :=
                    ih f ((st.pool.slots s).next) (askStep a price s st) hlen' hchain' hprev' hat hndt
                  have hdata : (t.map fun x => (((askStep a price s st).pool.slots x).order_id,
                        ((askStep a price s st).pool.slots x).quantity))
                      = t.map fun x => ((st.pool.slots x).order_id, (st.pool.slots x).quantity) := by
                    apply List.map_congr_left
                    intro x hx
                    have h3 := hpres3 x (fun h => hat (h ▸ hx)) (fun h => hsnt (h ▸ hx))
                    rw [h3.2.1, h3.2.2]
                  refine ⟨?_, ?_, ?_, ?_⟩
                  · rw [ihtr, hstr, hsta, hdata]
                    simp only [List.map_cons, specFillLevel, if_neg hq0, List.append_assoc,
                      List.singleton_append]
                  · rw [ihsa, hsta, hdata]
                    simp only [List.map_cons, specFillLevel, if_neg hq0]
                  · intro j hj1 hj2
                    have hjt : j ∉ t := fun h => hj2 (List.mem_cons_of_mem s h)
                    have hjs : j ≠ s := fun h => hj2 (h ▸ List.mem_cons_self s t)
                    rw [ihp3 j hj1 hjt, hpres4 j hj1 hjs (hnextj j hjt)]
                  · intro p' hp
                    rw [ihp4 p' hp, hlev p' hp]
                · -- the aggressor is exhausted on this resting order; the loop stops
                  have hz : ((askStep a price s st).pool.slots a).quantity = 0 := by
                    rw [hsta]
                    show (st.pool.slots a).quantity
                      - min (st.pool.slots a).quantity (st.pool.slots s).quantity = 0
                    omega
                  rw [matchAsksLoop_zero a price f _ _ hz]
                  have htq0 : (st.pool.slots a).quantity
                      - min (st.pool.slots a).quantity (st.pool.slots s).quantity = 0 := by omega
                  refine ⟨?_, ?_, ?_, ?_⟩
                  · rw [hstr]
                    simp only [List.map_cons, specFillLevel, if_neg hq0, htq0,
                      specFillLevel_rem_zero]
                  · rw [hsta]
                    simp only [List.map_cons, specFillLevel, if_neg hq0, htq0,
                      specFillLevel_rem_zero]
                  · intro j hj1 hj2
                    have hjt : j ∉ t := fun h => hj2 (List.mem_cons_of_mem s h)
                    have hjs : j ≠ s := fun h => hj2 (h ▸ List.mem_cons_self s t)
                    rw [hpres4 j hj1 hjs (hnextj j hjt)]
                  · exact hlev

/-- The ask-side price walk refines the ascending-price FIFO specification:
under per-level chain well-formedness and cross-level disjointness, the walk's
trades are exactly `specWalkBuy` over the recorded level data, and the
aggressor is left with the spec's remainder. -/
theorem matchAsksWalk_spec (a : Nat) (L : Int → List Nat) (data : Int → List (Nat × Nat))
    (hdisj : ∀ q q', q ≠ q' → ∀ x, x ∈ L q → x ∉ L q') :
    ∀ (fuel : Nat) (p : Int) (st : MEState),
    (∀ q, p ≤ q → chainOKb st.pool.slots ((st.book.askLevels q).head) (L q) = true) →
    (∀ q, p ≤ q → chainPrevOK st.pool.slots none (L q) = true) →
    (∀ q, p ≤ q → (L q).Nodup) →
    (∀ q, p ≤ q → a ∉ L q) →
    (∀ q, p ≤ q → (L q).length ≤ MAX_ORDERS) →
    (∀ q, p ≤ q → data q
      = (L q).map fun x => ((st.pool.slots x).order_id, (st.pool.slots x).quantity)) →
    (matchAsksWalk a fuel p st).trades
      = st.trades ++ (specWalkBuy (st.pool.slots a).order_id (st.pool.slots a).price data
          fuel p (st.pool.slots a).quantity).1
    ∧ (matchAsksWalk a fuel p st).pool.slots a
      = { st.pool.slots a with quantity := (specWalkBuy (st.pool.slots a).order_id
            (st.pool.slots a).price data fuel p (st.pool.slots a).quantity).2 } := by
  intro fuel
  induction fuel with
  | zero =>
      intro p st hL hPrev hnd hna hlenb hdata
      exact ⟨by simp [matchAsksWalk, specWalkBuy], by simp [matchAsksWalk, specWalkBuy]⟩
  | succ f ih =>
      intro p st hL hPrev hnd hna hlenb hdata
      rw [matchAsksWalk]
      by_cases hcond : p ≤ (st.pool.slots a).price ∧ p ≠ -1
      · rw [if_pos hcond]
        by_cases hoob : p < PRICE_MIN ∨ PRICE_MAX < p
        · simp only [Book.getPriceLevel, if_pos hoob]
          obtain ⟨ihtr, ihsa⟩ := ih (p + 1) st
            (fun q hq => hL q (by omega)) (fun q hq => hPrev q (by omega))
            (fun q hq => hnd q (by omega)) (fun q hq => hna q (by omega))
            (fun q hq => hlenb q (by omega)) (fun q hq => hdata q (by omega))
          refine ⟨?_, ?_⟩
          · rw [ihtr]
            simp only [specWalkBuy, if_pos hcond, if_pos hoob]
          · rw [ihsa]
            simp only [specWalkBuy, if_pos hcond, if_pos hoob]
        · simp only [Book.getPriceLevel, if_neg hoob]
          by_cases hemp : (st.book.askLevels p).head = none
          · have hLp : L p = [] := by
              have h1 := hL p le_rfl
              rw [hemp] at h1
              cases hc : L p with
              | nil => rfl
              | cons x xs => rw [hc] at h1; exact absurd h1 (by simp [chainOKb])
            have hdp : data p = [] := by rw [hdata p le_rfl, hLp]; rfl
            rw [if_pos hemp]
            obtain ⟨ihtr, ihsa⟩ := ih (p + 1) st
              (fun q hq => hL q (by omega)) (fun q hq => hPrev q (by omega))
              (fun q hq => hnd q (by omega)) (fun q hq => hna q (by omega))
              (fun q hq => hlenb q (by omega)) (fun q hq => hdata q (by omega))
            refine ⟨?_, ?_⟩
            · rw [ihtr]
              simp only [specWalkBuy, if_pos hcond, if_neg hoob, if_pos hdp]
            · rw [ihsa]
              simp only [specWalkBuy, if_pos hcond, if_neg hoob, if_pos hdp]
          · have hLp : L p ≠ [] := by
              intro hc
              have h1 := hL p le_rfl
              rw [hc] at h1
              rcases hh : (st.book.askLevels p).head with _ | w
              · exact hemp hh
              · rw [hh] at h1; exact absurd h1 (by simp [chainOKb])
            have hdne : data p ≠ [] := by
              rw [hdata p le_rfl]
              simpa using hLp
            rw [if_neg hemp]
            obtain ⟨iltr, ilsa, ilp3, ilp4⟩ :=
              matchAsksLoop_fifo a p (L p) chainFuel ((st.book.askLevels p).head) st
                (le_trans (hlenb p le_rfl) (Nat.le_succ _)) (hL p le_rfl) (hPrev p le_rfl)
                (hna p le_rfl) (hnd p le_rfl)
            rw [← hdata p le_rfl] at iltr ilsa
            by_cases hr0 : (specFillLevel (st.pool.slots a).order_id (st.pool.slots a).quantity
                p (data p)).2 = 0
            · have hq1 : ((matchAsksLoop a p chainFuel ((st.book.askLevels p).head) st).pool.slots
                  a).quantity = 0 := by rw [ilsa]; exact hr0
              rw [if_pos hq1]
              refine ⟨?_, ?_⟩
              · rw [iltr]
                simp only [specWalkBuy, if_pos hcond, if_neg hoob, if_neg hdne, if_pos hr0]
              · rw [ilsa]
                simp only [specWalkBuy, if_pos hcond, if_neg hoob, if_neg hdne, if_pos hr0]
                rw [hr0]
            · have hq1 : ¬((matchAsksLoop a p chainFuel ((st.book.askLevels p).head) st).pool.slots
                  a).quantity = 0 := by rw [ilsa]; exact hr0
              rw [if_neg hq1]
              have hmem : ∀ {q x}, p + 1 ≤ q → x ∈ L q → x ≠ a ∧ x ∉ L p := fun {q x} hq hx =>
                ⟨fun h => hna q (by omega) (h ▸ hx), hdisj q p (by omega) x hx⟩
              obtain ⟨ihtr, ihsa⟩ := ih (p + 1)
                (matchAsksLoop a p chainFuel ((st.book.askLevels p).head) st)
                (fun q hq => by
                  rw [ilp4 q (by omega),
                    chainOKb_congr st.pool.slots _ (L q)
                      (fun x hx => by rw [ilp3 x (hmem hq hx).1 (hmem hq hx).2])]
                  exact hL q (by omega))
                (fun q hq => by
                  rw [chainPrevOK_congr st.pool.slots _ (L q)
                      (fun x hx => by rw [ilp3 x (hmem hq hx).1 (hmem hq hx).2])]
                  exact hPrev q (by omega))
                (fun q hq => hnd q (by omega)) (fun q hq => hna q (by omega))
                (fun q hq => hlenb q (by omega))
                (fun q hq => by
                  rw [hdata q (by omega)]
                  exact (List.map_congr_left (fun x hx => by
                    rw [ilp3 x (hmem hq hx).1 (hmem hq hx).2])).symm)
              refine ⟨?_, ?_⟩
              · rw [ihtr, iltr, ilsa]
                simp only [specWalkBuy, if_pos hcond, if_neg hoob, if_neg hdne, if_neg hr0,
                  List.append_assoc]
              · rw [ihsa, ilsa]
                simp only [specWalkBuy, if_pos hcond, if_neg hoob, if_neg hdne, if_neg hr0]
      · rw [if_neg hcond]
        refine ⟨by simp [specWalkBuy, hcond], by simp [specWalkBuy, hcond]⟩

/-- Field-level characterisation of one bid-side matching step: the emitted
trade, the aggressor update, preservation of the traversal-relevant fields of
all other slots, full preservation of slots away from the removal surgery,
preservation of other price levels, and the head-reset of the successor's
`prev` link when the resting order is removed. -/
theorem bidStep_spec (a : Nat) (price : Int) (s : Nat) (st : MEState)
    (has : a ≠ s) (hsprev : (st.pool.slots s).prev = none)
    (hnexta : ∀ u, (st.pool.slots s).next = some u → u ≠ a) :
    (bidStep a price s st).trades = st.trades
      ++ [⟨(st.pool.slots a).order_id, (st.pool.slots s).order_id, price,
           min (st.pool.slots a).quantity (st.pool.slots s).quantity⟩]
    ∧ (bidStep a price s st).pool.slots a
      = { st.pool.slots a with quantity :=
            (st.pool.slots a).quantity - min (st.pool.slots a).quantity (st.pool.slots s).quantity }
    ∧ (∀ j, j ≠ a → j ≠ s →
        ((bidStep a price s st).pool.slots j).next = (st.pool.slots j).next
        ∧ ((bidStep a price s st).pool.slots j).order_id = (st.pool.slots j).order_id
        ∧ ((bidStep a price s st).pool.slots j).quantity = (st.pool.slots j).quantity)
    ∧ (∀ j, j ≠ a → j ≠ s → (∀ u, (st.pool.slots s).next = some u → j ≠ u) →
        (bidStep a price s st).pool.slots j = st.pool.slots j)
    ∧ (∀ p', p' ≠ price →
        (bidStep a price s st).book.bidLevels p' = st.book.bidLevels p')
    ∧ (∀ u, (st.pool.slots s).next = some u → u ≠ s →
        ((bidStep a price s st).pool.slots u).prev =
          (if (st.pool.slots s).quantity - min (st.pool.slots a).quantity (st.pool.slots s).quantity = 0
           then none else (st.pool.slots u).prev)) := by
  have has' : s ≠ a := Ne.symm has
  rcases hnext : (st.pool.slots s).next with _ | u
  · simp only [bidStep, execTrade, MEState.writeS, levelRemoveOrder, Pool.free,
      writeSlot_same, writeSlot_other _ _ _ _ has, writeSlot_other _ _ _ _ has',
      hsprev, hnext]
    split
    · refine ⟨?_, ?_, fun j hj1 hj2 => ?_, fun j hj1 hj2 hj3 => ?_,
        fun p' hp => ?_, fun v hv hvs => ?_⟩
      · simp [apply_ite MEState.trades]
      · simp [apply_ite MEState.pool, writeSlot_same, writeSlot_other _ _ _ _ has,
          writeSlot_other _ _ _ _ has']
      · simp [apply_ite MEState.pool, writeSlot_same, writeSlot_other _ _ _ _ hj1,
          writeSlot_other _ _ _ _ hj2]
      · simp [apply_ite MEState.pool, writeSlot_same, writeSlot_other _ _ _ _ hj1,
          writeSlot_other _ _ _ _ hj2]
      · simp [apply_ite MEState.book, writeLevel, hp]
      · exact absurd hv (by simp)
    · refine ⟨?_, ?_, fun j hj1 hj2 => ?_, fun j hj1 hj2 hj3 => ?_,
        fun p' hp => ?_, fun v hv hvs => ?_⟩
      · simp
      · simp [writeSlot_same, writeSlot_other _ _ _ _ has, writeSlot_other _ _ _ _ has']
      · simp [writeSlot_same, writeSlot_other _ _ _ _ hj1, writeSlot_other _ _ _ _ hj2]
      · simp [writeSlot_same, writeSlot_other _ _ _ _ hj1, writeSlot_other _ _ _ _ hj2]
      · rfl
      · exact absurd hv (by simp)
  · have hua : u ≠ a := hnexta u hnext
    simp only [bidStep, execTrade, MEState.writeS, levelRemoveOrder, Pool.free,
      writeSlot_same, writeSlot_other _ _ _ _ has, writeSlot_other _ _ _ _ has',
      hsprev, hnext]
    split
    · refine ⟨?_, ?_, fun j hj1 hj2 => ?_, fun j hj1 hj2 hj3 => ?_,
        fun p' hp => ?_, fun v hv hvs => ?_⟩
      · simp [apply_ite MEState.trades]
      · simp [apply_ite MEState.pool, writeSlot_same, writeSlot_other _ _ _ _ has,
          writeSlot_other _ _ _ _ has', writeSlot_other _ _ _ _ (Ne.symm hua)]
      · by_cases hju : j = u
        · subst hju
          simp [apply_ite MEState.pool, writeSlot_same, writeSlot_other _ _ _ _ hj1,
            writeSlot_other _ _ _ _ hj2]
        · simp [apply_ite MEState.pool, writeSlot_same, writeSlot_other _ _ _ _ hj1,
            writeSlot_other _ _ _ _ hj2, writeSlot_other _ _ _ _ hju]
      · have hju : j ≠ u := hj3 u rfl
        simp [apply_ite MEState.pool, writeSlot_same, writeSlot_other _ _ _ _ hj1,
          writeSlot_other _ _ _ _ hj2, writeSlot_other _ _ _ _ hju]
      · simp [apply_ite MEState.book, writeLevel, hp]
      · injection hv with hv2
        subst hv2
        simp [apply_ite MEState.pool, writeSlot_same, writeSlot_other _ _ _ _ hvs]
    · refine ⟨?_, ?_, fun j hj1 hj2 => ?_, fun j hj1 hj2 hj3 => ?_,
        fun p' hp => ?_, fun v hv hvs => ?_⟩
      · simp
      · simp [writeSlot_same, writeSlot_other _ _ _ _ has, writeSlot_other _ _ _ _ has']
      · simp [writeSlot_same, writeSlot_other _ _ _ _ hj1, writeSlot_other _ _ _ _ hj2]
      · simp [writeSlot_same, writeSlot_other _ _ _ _ hj1, writeSlot_other _ _ _ _ hj2]
      · rfl
      · injection hv with hv2
        subst hv2
        simp [writeSlot_same, writeSlot_other _ _ _ _ hvs, writeSlot_other _ _ _ _ hua]

/-- The inner bid-side loop refines FIFO filling of the level's chain: under
chain well-formedness, its trades are exactly `specFillLevel` of the recorded
`(order_id, quantity)` list, the aggressor retains the spec's remainder, and
slots and price levels away from the chain are untouched. -/
theorem matchBidsLoop_fifo (a : Nat) (price : Int) :
    ∀ (l : List Nat) (fuel : Nat) (cur : Option Nat) (st : MEState),
    l.length ≤ fuel →
    chainOKb st.pool.slots cur l = true →
    chainPrevOK st.pool.slots none l = true →
    a ∉ l → l.Nodup →
    (matchBidsLoop a price fuel cur st).trades
      = st.trades ++ (specFillLevel (st.pool.slots a).order_id (st.pool.slots a).quantity price
          (l.map fun x => ((st.pool.slots x).order_id, (st.pool.slots x).quantity))).1
    ∧ (matchBidsLoop a price fuel cur st).pool.slots a
      = { st.pool.slots a with quantity := (specFillLevel (st.pool.slots a).order_id
            (st.pool.slots a).quantity price
            (l.map fun x => ((st.pool.slots x).order_id, (st.pool.slots x).quantity))).2 }
    ∧ (∀ j, j ≠ a → j ∉ l →
        (matchBidsLoop a price fuel cur st).pool.slots j = st.pool.slots j)
    ∧ (∀ p', p' ≠ price →
        (matchBidsLoop a price fuel cur st).book.bidLevels p' = st.book.bidLevels p') := by
  intro l
  induction l with
  | nil =>
      intro fuel cur st hlen hchain hprev hna hnd
      cases cur with
      | none =>
          rw [matchBidsLoop_none]
          exact ⟨by simp [specFillLevel], by simp [specFillLevel],
            fun j _ _ => rfl, fun p' _ => rfl⟩
      | some c => exact absurd hchain (by simp [chainOKb])
  | cons s t ih =>
      intro fuel cur st hlen hchain hprev hna hnd
      cases cur with
      | none => exact absurd hchain (by simp [chainOKb])
      | some c =>
          obtain ⟨hcs, hrest⟩ : c = s ∧ chainOKb st.pool.slots ((st.pool.slots s).next) t = true := by
            simpa [chainOKb] using hchain
          obtain rfl : s = c := hcs.symm
          obtain ⟨hsprev, hprevt⟩ :
              (st.pool.slots s).prev = none ∧ chainPrevOK st.pool.slots (some s) t = true := by
            simpa [chainPrevOK] using hprev
          have has : a ≠ s := fun h => hna (h ▸ List.mem_cons_self s t)
          have hat : a ∉ t := fun h => hna (List.mem_cons_of_mem s h)
          have hsnt : s ∉ t := by simp at hnd; exact hnd.1
          have hndt : t.Nodup := by simp at hnd; exact hnd.2
          have hnexta : ∀ u, (st.pool.slots s).next = some u → u ≠ a := by
            intro u hu hua
            cases t with
            | nil => rw [hu] at hrest; exact absurd hrest (by simp [chainOKb])
            | cons w t' =>
                rw [hu] at hrest
                obtain ⟨h1, _⟩ : u = w ∧
                    chainOKb st.pool.slots ((st.pool.slots w).next) t' = true := by
                  simpa [chainOKb] using hrest
                exact hat (hua ▸ h1 ▸ List.mem_cons_self w t')
          have hnextj : ∀ j, j ∉ t → ∀ u, (st.pool.slots s).next = some u → j ≠ u := by
            intro j hj u hu hju
            cases t with
            | nil => rw [hu] at hrest; exact absurd hrest (by simp [chainOKb])
            | cons w t' =>
                rw [hu] at hrest
                obtain ⟨h1, _⟩ : u = w ∧
                    chainOKb st.pool.slots ((st.pool.slots w).next) t' = true := by
                  simpa [chainOKb] using hrest
                exact hj (hju ▸ h1 ▸ List.mem_cons_self w t')
          cases fuel with
          | zero => simp at hlen
          | succ f =>
              rw [matchBidsLoop]
              by_cases hq0 : (st.pool.slots a).quantity = 0
              · rw [if_pos hq0]
                refine ⟨?_, ?_, fun j _ _ => rfl, fun p' _ => rfl⟩
                · simp [hq0, specFillLevel]
                · simp only [List.map_cons, hq0, specFillLevel, if_pos]
                  exact (hq0 ▸ set_quantity_self (st.pool.slots a)).symm
              · rw [if_neg hq0]
                obtain ⟨hstr, hsta, hpres3, hpres4, hlev, hprevu⟩ :=
                  bidStep_spec a price s st has hsprev hnexta
                have hlen' : t.length ≤ f := by simp at hlen; omega
                by_cases hrem : (st.pool.slots s).quantity ≤ (st.pool.slots a).quantity
                · -- the resting order is fully consumed and removed; recurse on the tail
                  have hchain' : chainOKb (bidStep a price s st).pool.slots
                      ((st.pool.slots s).next) t = true := by
                    rw [chainOKb_congr st.pool.slots (bidStep a price s st).pool.slots t
                      (fun x hx => (hpres3 x (fun h => hat (h ▸ hx)) (fun h => hsnt (h ▸ hx))).1)]
                    exact hrest
                  have hprev' : chainPrevOK (bidStep a price s st).pool.slots none t = true := by
                    cases t with
                    | nil => rfl
                    | cons w t' =>
                        have hnu : (st.pool.slots s).next = some w := by
                          rcases hn : (st.pool.slots s).next with _ | v
                          · rw [hn] at hrest; exact absurd hrest (by simp [chainOKb])
                          · rw [hn] at hrest
                            obtain ⟨h1, _⟩ : v = w ∧
                                chainOKb st.pool.slots ((st.pool.slots w).next) t' = true := by
                              simpa [chainOKb] using hrest
                            rw [h1]
                        obtain ⟨-, hprevt'⟩ :
                            (st.pool.slots w).prev = some s ∧
                            chainPrevOK st.pool.slots (some w) t' = true := by
                          simpa [chainPrevOK] using hprevt
                        have hws : w ≠ s := fun h => hsnt (h ▸ List.mem_cons_self w t')
                        have hwprev : ((bidStep a price s st).pool.slots w).prev = none := by
                          rw [hprevu w hnu hws]
                          rw [if_pos (by omega)]
                        simp only [chainPrevOK, Bool.and_eq_true, decide_eq_true_eq]
                        refine ⟨hwprev, ?_⟩
                        rw [chainPrevOK_congr st.pool.slots (bidStep a price s st).pool.slots t'
                          (fun x hx => by
                            have hxa : x ≠ a := fun h => hat (h ▸ List.mem_cons_of_mem w hx)
                            have hxs : x ≠ s := fun h => hsnt (h ▸ List.mem_cons_of_mem w hx)
                            have hxw : x ≠ w := fun h => ((List.nodup_cons.mp hndt).1) (h ▸ hx)
                            rw [hpres4 x hxa hxs (fun u hu => by
                              rw [hnu] at hu; injection hu with h2; exact h2 ▸ hxw)])
                          (some w)]
                        exact hprevt'
                  obtain ⟨ihtr, ihsa, ihp3, ihp4⟩ :=
                    ih f ((st.pool.slots s).next) (bidStep a price s st) hlen' hchain' hprev' hat hndt
                  have hdata : (t.map fun x => (((bidStep a price s st).pool.slots x).order_id,
                        ((bidStep a price s st).pool.slots x).quantity))
                      = t.map fun x => ((st.pool.slots x).order_id, (st.pool.slots x).quantity) := by
                    apply List.map_congr_left
                    intro x hx
                    have h3 := hpres3 x (fun h => hat (h ▸ hx)) (fun h => hsnt (h ▸ hx))
                    rw [h3.2.1, h3.2.2]
                  refine ⟨?_, ?_, ?_, ?_⟩
                  · rw [ihtr, hstr, hsta, hdata]
                    simp only [List.map_cons, specFillLevel, if_neg hq0, List.append_assoc,
                      List.singleton_append]
                  · rw [ihsa, hsta, hdata]
                    simp only [List.map_cons, specFillLevel, if_neg hq0]
                  · intro j hj1 hj2
                    have hjt : j ∉ t := fun h => hj2 (List.mem_cons_of_mem s h)
                    have hjs : j ≠ s := fun h => hj2 (h ▸ List.mem_cons_self s t)
                    rw [ihp3 j hj1 hjt, hpres4 j hj1 hjs (hnextj j hjt)]
                  · intro p' hp
                    rw [ihp4 p' hp, hlev p' hp]
                · -- the aggressor is exhausted on this resting order; the loop stops
                  have hz : ((bidStep a price s st).pool.slots a).quantity = 0 := by
                    rw [hsta]
                    show (st.pool.slots a).quantity
                      - min (st.pool.slots a).quantity (st.pool.slots s).quantity = 0
                    omega
                  rw [matchBidsLoop_zero a price f _ _ hz]
                  have htq0 : (st.pool.slots a).quantity
                      - min (st.pool.slots a).quantity (st.pool.slots s).quantity = 0 := by omega
                  refine ⟨?_, ?_, ?_, ?_⟩
                  · rw [hstr]
                    simp only [List.map_cons, specFillLevel, if_neg hq0, htq0,
                      specFillLevel_rem_zero]
                  · rw [hsta]
                    simp only [List.map_cons, specFillLevel, if_neg hq0, htq0,
                      specFillLevel_rem_zero]
                  · intro j hj1 hj2
                    have hjt : j ∉ t := fun h => hj2 (List.mem_cons_of_mem s h)
                    have hjs : j ≠ s := fun h => hj2 (h ▸ List.mem_cons_self s t)
                    rw [hpres4 j hj1 hjs (hnextj j hjt)]
                  · exact hlev

/-- The bid-side price walk refines the descending-price FIFO specification:
under per-level chain well-formedness and cross-level disjointness, the walk's
trades are exactly `specWalkSell` over the recorded level data, and the
aggressor is left with the spec's remainder. -/
theorem matchBidsWalk_spec (a : Nat) (L : Int → List Nat) (data : Int → List (Nat × Nat))
    (hdisj : ∀ q q', q ≠ q' → ∀ x, x ∈ L q → x ∉ L q') :
    ∀ (fuel : Nat) (p : Int) (st : MEState),
    (∀ q, q ≤ p → chainOKb st.pool.slots ((st.book.bidLevels q).head) (L q) = true) →
    (∀ q, q ≤ p → chainPrevOK st.pool.slots none (L q) = true) →
    (∀ q, q ≤ p → (L q).Nodup) →
    (∀ q, q ≤ p → a ∉ L q) →
    (∀ q, q ≤ p → (L q).length ≤ MAX_ORDERS) →
    (∀ q, q ≤ p → data q
      = (L q).map fun x => ((st.pool.slots x).order_id, (st.pool.slots x).quantity)) →
    (matchBidsWalk a fuel p st).trades
      = st.trades ++ (specWalkSell (st.pool.slots a).order_id (st.pool.slots a).price data
          fuel p (st.pool.slots a).quantity).1
    ∧ (matchBidsWalk a fuel p st).pool.slots a
      = { st.pool.slots a with quantity := (specWalkSell (st.pool.slots a).order_id
            (st.pool.slots a).price data fuel p (st.pool.slots a).quantity).2 } := by
  intro fuel
  induction fuel with
  | zero =>
      intro p st hL hPrev hnd hna hlenb hdata
      exact ⟨by simp [matchBidsWalk, specWalkSell], by simp [matchBidsWalk, specWalkSell]⟩
  | succ f ih =>
      intro p st hL hPrev hnd hna hlenb hdata
      rw [matchBidsWalk]
      by_cases hcond : (st.pool.slots a).price ≤ p ∧ p ≠ -1
      · rw [if_pos hcond]
        by_cases hoob : p < PRICE_MIN ∨ PRICE_MAX < p
        · simp only [Book.getPriceLevel, if_pos hoob]
          obtain ⟨ihtr, ihsa⟩ := ih (p - 1) st
            (fun q hq => hL q (by omega)) (fun q hq => hPrev q (by omega))
            (fun q hq => hnd q (by omega)) (fun q hq => hna q (by omega))
            (fun q hq => hlenb q (by omega)) (fun q hq => hdata q (by omega))
          refine ⟨?_, ?_⟩
          · rw [ihtr]
            simp only [specWalkSell, if_pos hcond, if_pos hoob]
          · rw [ihsa]
            simp only [specWalkSell, if_pos hcond, if_pos hoob]
        · simp only [Book.getPriceLevel, if_neg hoob]
          by_cases hemp : (st.book.bidLevels p).head = none
          · have hLp : L p = [] := by
              have h1 := hL p le_rfl
              rw [hemp] at h1
              cases hc : L p with
              | nil => rfl
              | cons x xs => rw [hc] at h1; exact absurd h1 (by simp [chainOKb])
            have hdp : data p = [] := by rw [hdata p le_rfl, hLp]; rfl
            rw [if_pos hemp]
            obtain ⟨ihtr, ihsa⟩ := ih (p - 1) st
              (fun q hq => hL q (by omega)) (fun q hq => hPrev q (by omega))
              (fun q hq => hnd q (by omega)) (fun q hq => hna q (by omega))
              (fun q hq => hlenb q (by omega)) (fun q hq => hdata q (by omega))
            refine ⟨?_, ?_⟩
            · rw [ihtr]
              simp only [specWalkSell, if_pos hcond, if_neg hoob, if_pos hdp]
            · rw [ihsa]
              simp only [specWalkSell, if_pos hcond, if_neg hoob, if_pos hdp]
          · have hLp : L p ≠ [] := by
              intro hc
              have h1 := hL p le_rfl
              rw [hc] at h1
              rcases hh : (st.book.bidLevels p).head with _ | w
              · exact hemp hh
              · rw [hh] at h1; exact absurd h1 (by simp [chainOKb])
            have hdne : data p ≠ [] := by
              rw [hdata p le_rfl]
              simpa using hLp
            rw [if_neg hemp]
            obtain ⟨iltr, ilsa, ilp3, ilp4⟩ :=
              matchBidsLoop_fifo a p (L p) chainFuel ((st.book.bidLevels p).head) st
                (le_trans (hlenb p le_rfl) (Nat.le_succ _)) (hL p le_rfl) (hPrev p le_rfl)
                (hna p le_rfl) (hnd p le_rfl)
            rw [← hdata p le_rfl] at iltr ilsa
            by_cases hr0 : (specFillLevel (st.pool.slots a).order_id (st.pool.slots a).quantity
                p (data p)).2 = 0
            · have hq1 : ((matchBidsLoop a p chainFuel ((st.book.bidLevels p).head) st).pool.slots
                  a).quantity = 0 := by rw [ilsa]; exact hr0
              rw [if_pos hq1]
              refine ⟨?_, ?_⟩
              · rw [iltr]
                simp only [specWalkSell, if_pos hcond, if_neg hoob, if_neg hdne, if_pos hr0]
              · rw [ilsa]
                simp only [specWalkSell, if_pos hcond, if_neg hoob, if_neg hdne, if_pos hr0]
                rw [hr0]
            · have hq1 : ¬((matchBidsLoop a p chainFuel ((st.book.bidLevels p).head) st).pool.slots
                  a).quantity = 0 := by rw [ilsa]; exact hr0
              rw [if_neg hq1]
              have hmem : ∀ {q x}, q ≤ p - 1 → x ∈ L q → x ≠ a ∧ x ∉ L p := fun {q x} hq hx =>
                ⟨fun h => hna q (by omega) (h ▸ hx), hdisj q p (by omega) x hx⟩
              obtain ⟨ihtr, ihsa⟩ := ih (p - 1)
                (matchBidsLoop a p chainFuel ((st.book.bidLevels p).head) st)
                (fun q hq => by
                  rw [ilp4 q (by omega),
                    chainOKb_congr st.pool.slots _ (L q)
                      (fun x hx => by rw [ilp3 x (hmem hq hx).1 (hmem hq hx).2])]
                  exact hL q (by omega))
                (fun q hq => by
                  rw [chainPrevOK_congr st.pool.slots _ (L q)
                      (fun x hx => by rw [ilp3 x (hmem hq hx).1 (hmem hq hx).2])]
                  exact hPrev q (by omega))
                (fun q hq => hnd q (by omega)) (fun q hq => hna q (by omega))
                (fun q hq => hlenb q (by omega))
                (fun q hq => by
                  rw [hdata q (by omega)]
                  exact (List.map_congr_left (fun x hx => by
                    rw [ilp3 x (hmem hq hx).1 (hmem hq hx).2])).symm)
              refine ⟨?_, ?_⟩
              · rw [ihtr, iltr, ilsa]
                simp only [specWalkSell, if_pos hcond, if_neg hoob, if_neg hdne, if_neg hr0,
                  List.append_assoc]
              · rw [ihsa, ilsa]
                simp only [specWalkSell, if_pos hcond, if_neg hoob, if_neg hdne, if_neg hr0]
      · rw [if_neg hcond]
        refine ⟨by simp [specWalkSell, hcond], by simp [specWalkSell, hcond]⟩

theorem specFillLevel_price (i : Nat) (p : Int) :
    ∀ (l : List (Nat × Nat)) (rem : Nat),
    ∀ tr ∈ (specFillLevel i rem p l).1, tr.price = p := by
  intro l
  induction l with
  | nil => intro rem tr htr; simp [specFillLevel] at htr
  | cons x t ih =>
      intro rem tr htr
      by_cases h0 : rem = 0
      · simp [specFillLevel, h0] at htr
      · obtain ⟨oid, q⟩ := x
        simp only [specFillLevel, if_neg h0, List.mem_cons] at htr
        rcases htr with h | h
        · rw [h]
        · exact ih _ tr h

theorem specWalkBuy_price_lb (i : Nat) (limit : Int) (data : Int → List (Nat × Nat)) :
    ∀ (fuel : Nat) (p : Int) (rem : Nat),
    ∀ tr ∈ (specWalkBuy i limit data fuel p rem).1, p ≤ tr.price := by
  intro fuel
  induction fuel with
  | zero => intro p rem tr htr; simp [specWalkBuy] at htr
  | succ f ih =>
      intro p rem tr htr
      by_cases hcond : p ≤ limit ∧ p ≠ -1
      · rw [specWalkBuy, if_pos hcond] at htr
        by_cases hoob : p < PRICE_MIN ∨ PRICE_MAX < p
        · rw [if_pos hoob] at htr
          have := ih (p + 1) rem tr htr
          omega
        · rw [if_neg hoob] at htr
          by_cases hdp : data p = []
          · rw [if_pos hdp] at htr
            have := ih (p + 1) rem tr htr
            omega
          · rw [if_neg hdp] at htr
            by_cases hr0 : (specFillLevel i rem p (data p)).2 = 0
            · rw [if_pos hr0] at htr
              exact le_of_eq (specFillLevel_price i p (data p) rem tr htr).symm
            · rw [if_neg hr0] at htr
              simp only [List.mem_append] at htr
              rcases htr with h | h
              · exact le_of_eq (specFillLevel_price i p (data p) rem tr h).symm
              · have := ih (p + 1) _ tr h
                omega
      · rw [specWalkBuy, if_neg hcond] at htr
        simp at htr

theorem specWalkSell_price_ub (i : Nat) (limit : Int) (data : Int → List (Nat × Nat)) :
    ∀ (fuel : Nat) (p : Int) (rem : Nat),
    ∀ tr ∈ (specWalkSell i limit data fuel p rem).1, tr.price ≤ p := by
  intro fuel
  induction fuel with
  | zero => intro p rem tr htr; simp [specWalkSell] at htr
  | succ f ih =>
      intro p rem tr htr
      by_cases hcond : limit ≤ p ∧ p ≠ -1
      · rw [specWalkSell, if_pos hcond] at htr
        by_cases hoob : p < PRICE_MIN ∨ PRICE_MAX < p
        · rw [if_pos hoob] at htr
          have := ih (p - 1) rem tr htr
          omega
        · rw [if_neg hoob] at htr
          by_cases hdp : data p = []
          · rw [if_pos hdp] at htr
            have := ih (p - 1) rem tr htr
            omega
          · rw [if_neg hdp] at htr
            by_cases hr0 : (specFillLevel i rem p (data p)).2 = 0
            · rw [if_pos hr0] at htr
              exact le_of_eq (specFillLevel_price i p (data p) rem tr htr)
            · rw [if_neg hr0] at htr
              simp only [List.mem_append] at htr
              rcases htr with h | h
              · exact le_of_eq (specFillLevel_price i p (data p) rem tr h)
              · have := ih (p - 1) _ tr h
                omega
      · rw [specWalkSell, if_neg hcond] at htr
        simp at htr

theorem sorted_le_map_const (l : List Trade) (c : Int)
    (h : ∀ x ∈ l, x.price = c) : List.Sorted (· ≤ ·) (l.map Trade.price) := by
  induction l with
  | nil => simp
  | cons x t ih =>
      simp only [List.map_cons, List.sorted_cons]
      refine ⟨?_, ih fun y hy => h y (List.mem_cons_of_mem x hy)⟩
      intro b hb
      obtain ⟨y, hy, rfl⟩ := List.mem_map.mp hb
      rw [h x (List.mem_cons_self x t), h y (List.mem_cons_of_mem x hy)]

theorem sorted_ge_map_const (l : List Trade) (c : Int)
    (h : ∀ x ∈ l, x.price = c) : List.Sorted (· ≥ ·) (l.map Trade.price) := by
  induction l with
  | nil => simp
  | cons x t ih =>
      simp only [List.map_cons, List.sorted_cons]
      refine ⟨?_, ih fun y hy => h y (List.mem_cons_of_mem x hy)⟩
      intro b hb
      obtain ⟨y, hy, rfl⟩ := List.mem_map.mp hb
      rw [h x (List.mem_cons_self x t), h y (List.mem_cons_of_mem x hy)]

theorem specWalkBuy_sorted (i : Nat) (limit : Int) (data : Int → List (Nat × Nat)) :
    ∀ (fuel : Nat) (p : Int) (rem : Nat),
    List.Sorted (· ≤ ·) ((specWalkBuy i limit data fuel p rem).1.map Trade.price) := by
  intro fuel
  induction fuel with
  | zero => intro p rem; simp [specWalkBuy]
  | succ f ih =>
      intro p rem
      by_cases hcond : p ≤ limit ∧ p ≠ -1
      · rw [specWalkBuy, if_pos hcond]
        by_cases hoob : p < PRICE_MIN ∨ PRICE_MAX < p
        · rw [if_pos hoob]; exact ih (p + 1) rem
        · rw [if_neg hoob]
          by_cases hdp : data p = []
          · rw [if_pos hdp]; exact ih (p + 1) rem
          · rw [if_neg hdp]
            by_cases hr0 : (specFillLevel i rem p (data p)).2 = 0
            · rw [if_pos hr0]
              exact sorted_le_map_const _ p (specFillLevel_price i p (data p) rem)
            · rw [if_neg hr0]
              simp only [List.map_append]
              refine List.pairwise_append.mpr
                ⟨sorted_le_map_const _ p (specFillLevel_price i p (data p) rem),
                 ih (p + 1) _, ?_⟩
              intro x hx y hy
              obtain ⟨tx, htx, rfl⟩ := List.mem_map.mp hx
              obtain ⟨ty, hty, rfl⟩ := List.mem_map.mp hy
              have h1 := specFillLevel_price i p (data p) rem tx htx
              have h2 := specWalkBuy_price_lb i limit data f (p + 1) _ ty hty
              omega
      · rw [specWalkBuy, if_neg hcond]; simp

theorem specWalkSell_sorted (i : Nat) (limit : Int) (data : Int → List (Nat × Nat)) :
    ∀ (fuel : Nat) (p : Int) (rem : Nat),
    List.Sorted (· ≥ ·) ((specWalkSell i limit data fuel p rem).1.map Trade.price) := by
  intro fuel
  induction fuel with
  | zero => intro p rem; simp [specWalkSell]
  | succ f ih =>
      intro p rem
      by_cases hcond : limit ≤ p ∧ p ≠ -1
      · rw [specWalkSell, if_pos hcond]
        by_cases hoob : p < PRICE_MIN ∨ PRICE_MAX < p
        · rw [if_pos hoob]; exact ih (p - 1) rem
        · rw [if_neg hoob]
          by_cases hdp : data p = []
          · rw [if_pos hdp]; exact ih (p - 1) rem
          · rw [if_neg hdp]
            by_cases hr0 : (specFillLevel i rem p (data p)).2 = 0
            · rw [if_pos hr0]
              exact sorted_ge_map_const _ p (specFillLevel_price i p (data p) rem)
            · rw [if_neg hr0]
              simp only [List.map_append]
              refine List.pairwise_append.mpr
                ⟨sorted_ge_map_const _ p (specFillLevel_price i p (data p) rem),
                 ih (p - 1) _, ?_⟩
              intro x hx y hy
              obtain ⟨tx, htx, rfl⟩ := List.mem_map.mp hx
              obtain ⟨ty, hty, rfl⟩ := List.mem_map.mp hy
              have h1 := specFillLevel_price i p (data p) rem tx htx
              have h2 := specWalkSell_price_ub i limit data f (p - 1) _ ty hty
              omega
      · rw [specWalkSell, if_neg hcond]; simp


/-- C5: the matching walks obey strict price-time priority.  For a BUY
aggressor, `match_against_asks` produces exactly the trades of `specWalkBuy`,
which visits ask levels in strictly ascending price order from the best ask
and fills each level in FIFO (head-first) order, each trade being
`min (aggressor remaining, resting remaining)`; dually for a SELL aggressor
with `match_against_bids` and `specWalkSell` (descending from the best bid);
and the emitted trade prices are monotone (ascending for BUY, descending for
SELL). -/
theorem c5_price_time_priority :
    (∀ (st : MEState) (a : Nat) (L : Int → List Nat) (data : Int → List (Nat × Nat)),
       (∀ q q', q ≠ q' → ∀ x, x ∈ L q → x ∉ L q') →
       (∀ q, st.book.best_ask_price ≤ q →
          chainOKb st.pool.slots ((st.book.askLevels q).head) (L q) = true) →
       (∀ q, st.book.best_ask_price ≤ q → chainPrevOK st.pool.slots none (L q) = true) →
       (∀ q, st.book.best_ask_price ≤ q → (L q).Nodup) →
       (∀ q, st.book.best_ask_price ≤ q → a ∉ L q) →
       (∀ q, st.book.best_ask_price ≤ q → (L q).length ≤ MAX_ORDERS) →
       (∀ q, st.book.best_ask_price ≤ q →
          data q = (L q).map fun x => ((st.pool.slots x).order_id, (st.pool.slots x).quantity)) →
       (matchAgainstAsks a st).trades
         = st.trades ++ (specWalkBuy (st.pool.slots a).order_id (st.pool.slots a).price data
             (((st.pool.slots a).price - st.book.best_ask_price).toNat + 1)
             st.book.best_ask_price (st.pool.slots a).quantity).1)
    ∧ (∀ (st : MEState) (a : Nat) (L : Int → List Nat) (data : Int → List (Nat × Nat)),
       (∀ q q', q ≠ q' → ∀ x, x ∈ L q → x ∉ L q') →
       (∀ q, q ≤ st.book.best_bid_price →
          chainOKb st.pool.slots ((st.book.bidLevels q).head) (L q) = true) →
       (∀ q, q ≤ st.book.best_bid_price → chainPrevOK st.pool.slots none (L q) = true) →
       (∀ q, q ≤ st.book.best_bid_price → (L q).Nodup) →
       (∀ q, q ≤ st.book.best_bid_price → a ∉ L q) →
       (∀ q, q ≤ st.book.best_bid_price → (L q).length ≤ MAX_ORDERS) →
       (∀ q, q ≤ st.book.best_bid_price →
          data q = (L q).map fun x => ((st.pool.slots x).order_id, (st.pool.slots x).quantity)) →
       (matchAgainstBids a st).trades
         = st.trades ++ (specWalkSell (st.pool.slots a).order_id (st.pool.slots a).price data
             ((st.book.best_bid_price - (st.pool.slots a).price).toNat + 1)
             st.book.best_bid_price (st.pool.slots a).quantity).1)
    ∧ (∀ (i : Nat) (limit : Int) (data : Int → List (Nat × Nat)) (fuel : Nat) (p : Int) (rem : Nat),
       List.Sorted (· ≤ ·) ((specWalkBuy i limit data fuel p rem).1.map Trade.price))
    ∧ (∀ (i : Nat) (limit : Int) (data : Int → List (Nat × Nat)) (fuel : Nat) (p : Int) (rem : Nat),
       List.Sorted (· ≥ ·) ((specWalkSell i limit data fuel p rem).1.map Trade.price)) :=
  ⟨fun st a L data hdisj hL hPrev hnd hna hlenb hdata =>
     (matchAsksWalk_spec a L data hdisj _ _ st hL hPrev hnd hna hlenb hdata).1,
   fun st a L data hdisj hL hPrev hnd hna hlenb hdata =>
     (matchBidsWalk_spec a L data hdisj _ _ st hL hPrev hnd hna hlenb hdata).1,
   specWalkBuy_sorted, specWalkSell_sorted⟩

/-- Witness for `c5_price_time_priority` at a concrete two-level ask book, a
concrete one-level bid book, and concrete spec-walk arguments. -/
theorem c5_price_time_priority_witness :
    ((matchAgainstAsks 2 c5St).trades
       = c5St.trades ++ (specWalkBuy (c5St.pool.slots 2).order_id (c5St.pool.slots 2).price c5Data
           (((c5St.pool.slots 2).price - c5St.book.best_ask_price).toNat + 1)
           c5St.book.best_ask_price (c5St.pool.slots 2).quantity).1)
    ∧ ((matchAgainstBids 2 c5StS).trades
       = c5StS.trades ++ (specWalkSell (c5StS.pool.slots 2).order_id (c5StS.pool.slots 2).price
           c5DataS ((c5StS.book.best_bid_price - (c5StS.pool.slots 2).price).toNat + 1)
           c5StS.book.best_bid_price (c5StS.pool.slots 2).quantity).1)
    ∧ List.Sorted (· ≤ ·) ((specWalkBuy 3 5001 c5Data 2 5000 60).1.map Trade.price)
    ∧ List.Sorted (· ≥ ·) ((specWalkSell 3 5999 c5DataS 2 6000 50).1.map Trade.price) := by
  refine ⟨?_, ?_, c5_price_time_priority.2.2.1 3 5001 c5Data 2 5000 60,
    c5_price_time_priority.2.2.2 3 5999 c5DataS 2 6000 50⟩
  · refine c5_price_time_priority.1 c5St 2 c5L c5Data ?_ ?_ ?_ ?_ ?_ ?_ ?_
    · intro q q' hne x hx
      by_cases h1 : q = 5000 <;> by_cases h2 : q = 5001 <;>
        by_cases h3 : q' = 5000 <;> by_cases h4 : q' = 5001 <;>
          simp_all [c5L]
    · intro q hq
      by_cases h1 : q = 5000
      · subst h1; decide
      · by_cases h2 : q = 5001
        · subst h2; decide
        · simp [c5L, h1, h2, c5St, c5Asks, writeLevel, MEState.initE, Book.initB, Level.initL, chainOKb]
    · intro q hq
      by_cases h1 : q = 5000
      · subst h1; decide
      · by_cases h2 : q = 5001
        · subst h2; decide
        · simp [c5L, h1, h2, chainPrevOK]
    · intro q hq
      simp only [c5L]
      split
      · decide
      · split <;> decide
    · intro q hq
      simp only [c5L]
      split
      · decide
      · split <;> decide
    · intro q hq
      simp only [c5L]
      split
      · decide
      · split <;> decide
    · intro q hq
      by_cases h1 : q = 5000
      · subst h1; decide
      · by_cases h2 : q = 5001
        · subst h2; decide
        · simp [c5L, c5Data, h1, h2]
  · refine c5_price_time_priority.2.1 c5StS 2 c5LS c5DataS ?_ ?_ ?_ ?_ ?_ ?_ ?_
    · intro q q' hne x hx
      by_cases h1 : q = 6000 <;> by_cases h2 : q' = 6000 <;> simp_all [c5LS]
    · intro q hq
      by_cases h1 : q = 6000
      · subst h1; decide
      · simp [c5LS, h1, c5StS, c5Bids, writeLevel, MEState.initE, Book.initB, Level.initL, chainOKb]
    · intro q hq
      by_cases h1 : q = 6000
      · subst h1; decide
      · simp [c5LS, h1, chainPrevOK]
    · intro q hq
      simp only [c5LS]
      split <;> decide
    · intro q hq
      simp only [c5LS]
      split <;> decide
    · intro q hq
      simp only [c5LS]
      split <;> decide
    · intro q hq
      by_cases h1 : q = 6000
      · subst h1; decide
      · simp [c5LS, c5DataS, h1]

end OME
